import Mathlib

/-!
Verification of the BN254 curve-group and point-encoding layer
(`src/bn256/ec.rs`): compressed encoding round trips, identity encoding,
decode error handling, generators, and the Jacobian group law.

The base field `Fq` is embedded as `ZMod P` for the BN254 base-field
modulus `P`; a 32-byte little-endian array is represented by its value as
a natural number below `2^256` (byte `i` of the array is `n / 256^i % 256`),
and a 64-byte array by a natural below `2^512`.  Field arithmetic, the
quadratic extension `Fq2` and the curve-group macro `new_curve_impl!` live
outside the given source tree, so they are modelled from the spec where
noted.
-/

set_option maxRecDepth 4000

/-- The BN254 base field modulus (a 254-bit prime). -/
def P : ℕ := 21888242871839275222246405745257275088696311157297823662689037894645226208583

instance : NeZero P := ⟨by decide⟩

/-- Fuel-bounded modular exponentiation by repeated squaring; the fuel keeps
the recursion structural so that the kernel can evaluate it on concrete
254-bit exponents. -/
def powModAux (m : ℕ) : ℕ → ℕ → ℕ → ℕ
  | 0, _, _ => 1 % m
  | fuel + 1, b, e =>
    if e = 0 then 1 % m
    else if e % 2 = 1 then powModAux m fuel (b * b % m) (e / 2) * b % m
    else powModAux m fuel (b * b % m) (e / 2)

/-- Modular exponentiation `b ^ e % m`, valid for exponents below `2 ^ 300`. -/
def powMod (b e m : ℕ) : ℕ := powModAux m 300 (b % m) e

theorem powModAux_correct (m : ℕ) :
    ∀ fuel e b, e < 2 ^ fuel → powModAux m fuel b e = b ^ e % m := by
  intro fuel
  induction fuel with
  | zero =>
    intro e b he
    have he0 : e = 0 := by
      have h1 : e < 1 := by simpa using he
      omega
    subst he0
    simp [powModAux]
  | succ f ih =>
    intro e b he
    rw [powModAux]
    by_cases he0 : e = 0
    · subst he0; simp
    · have h2 : e / 2 < 2 ^ f := by
        have h := he
        rw [pow_succ] at h
        omega
      rw [if_neg he0, ih (e / 2) (b * b % m) h2]
      have hb : (b * b % m) ^ (e / 2) % m = (b * b) ^ (e / 2) % m := (Nat.pow_mod _ _ _).symm
      have hbb : (b * b) ^ (e / 2) = b ^ (2 * (e / 2)) := by
        rw [two_mul, pow_add, mul_pow]
      rcases Nat.even_or_odd e with hpar | hpar
      · have hp : e % 2 = 0 := Nat.even_iff.mp hpar
        rw [if_neg (by omega), hb, hbb]
        congr 2
        omega
      · have hp : e % 2 = 1 := Nat.odd_iff.mp hpar
        rw [if_pos hp, hb, hbb]
        calc b ^ (2 * (e / 2)) % m * b % m
            = b ^ (2 * (e / 2)) * b % m := Nat.mod_mul_mod
          _ = b ^ (2 * (e / 2) + 1) % m := by rw [pow_succ]
          _ = b ^ e % m := by congr 2; omega

theorem powMod_correct (b e m : ℕ) (he : e < 2 ^ 300) : powMod b e m = b ^ e % m := by
  rw [powMod, powModAux_correct m 300 e (b % m) he, ← Nat.pow_mod]

/-- The base field of BN254, `ZMod P` (external collaborator of the source;
its canonical byte encoding is little-endian with the value reduced mod `P`). -/
abbrev Fq : Type := ZMod P

/-- Transport a `ℕ`-power computed by `powMod` into `ZMod n`. -/
theorem zmod_pow_eq_powMod (n : ℕ) (a e : ℕ) (he : e < 2 ^ 300) :
    ((a : ZMod n)) ^ e = ((powMod a e n : ℕ) : ZMod n) := by
  rw [powMod_correct a e n he, ZMod.natCast_mod, Nat.cast_pow]

/-- A concrete `powMod` residue different from `1` disproves `a ^ e = 1` in `ZMod n`. -/
theorem zmod_pow_ne_one (n a e r : ℕ) (hn : 1 < n) (he : e < 2 ^ 300)
    (hr : powMod a e n = r) (hne : ¬ r % n = 1 % n) : ((a : ZMod n)) ^ e ≠ 1 := by
  rw [zmod_pow_eq_powMod n a e he, hr]
  intro h
  have h2 : ((r : ℕ) : ZMod n) = ((1 : ℕ) : ZMod n) := by simpa using h
  exact hne ((ZMod.natCast_eq_natCast_iff' r 1 n).mp h2)

/-- A concrete `powMod` residue equal to `1 % n` proves `a ^ e = 1` in `ZMod n`. -/
theorem zmod_pow_eq_one (n a e : ℕ) (he : e < 2 ^ 300) (hr : powMod a e n = 1 % n) :
    ((a : ZMod n)) ^ e = 1 := by
  rw [zmod_pow_eq_powMod n a e he, hr, ZMod.natCast_mod, Nat.cast_one]

/-- Lucas primality certificate for `405928799`. -/
theorem prime_405928799 : Nat.Prime 405928799 := by
  have hn1 : 405928799 - 1 = 405928798 := by decide
  refine lucas_primality 405928799 ((22 : ℕ) : ZMod 405928799) ?_ ?_
  · rw [hn1]
    exact zmod_pow_eq_one 405928799 22 405928798 (by decide) (by decide)
  · intro q hq hdvd
    rw [hn1] at hdvd ⊢
    have hfac : (405928798 : ℕ) = 2 * (11 * (3691 * (4999))) := by decide
    rw [hfac] at hdvd
    rcases (Nat.Prime.dvd_mul hq).mp hdvd with h | h
    · have hqe : q = 2 := (Nat.prime_dvd_prime_iff_eq hq (by norm_num)).mp h
      subst hqe
      exact zmod_pow_ne_one 405928799 22 (405928798 / 2) 405928798 (by decide) (by decide) (by decide) (by decide)
    rcases (Nat.Prime.dvd_mul hq).mp h with h | h
    · have hqe : q = 11 := (Nat.prime_dvd_prime_iff_eq hq (by norm_num)).mp h
      subst hqe
      exact zmod_pow_ne_one 405928799 22 (405928798 / 11) 215859951 (by decide) (by decide) (by decide) (by decide)
    rcases (Nat.Prime.dvd_mul hq).mp h with h | h
    · have hqe : q = 3691 := (Nat.prime_dvd_prime_iff_eq hq (by norm_num)).mp h
      subst hqe
      exact zmod_pow_ne_one 405928799 22 (405928798 / 3691) 147917081 (by decide) (by decide) (by decide) (by decide)
    have hqe : q = 4999 := (Nat.prime_dvd_prime_iff_eq hq (by norm_num)).mp h
    subst hqe
    exact zmod_pow_ne_one 405928799 22 (405928798 / 4999) 61847818 (by decide) (by decide) (by decide) (by decide)

/-- Lucas primality certificate for `11465965001`. -/
theorem prime_11465965001 : Nat.Prime 11465965001 := by
  have hn1 : 11465965001 - 1 = 11465965000 := by decide
  refine lucas_primality 11465965001 ((3 : ℕ) : ZMod 11465965001) ?_ ?_
  · rw [hn1]
    exact zmod_pow_eq_one 11465965001 3 11465965000 (by decide) (by decide)
  · intro q hq hdvd
    rw [hn1] at hdvd ⊢
    have hfac : (11465965000 : ℕ) = 2 * (2 * (2 * (5 * (5 * (5 * (5 * (7 * (327599)))))))) := by decide
    rw [hfac] at hdvd
    rcases (Nat.Prime.dvd_mul hq).mp hdvd with h | h
    · have hqe : q = 2 := (Nat.prime_dvd_prime_iff_eq hq (by norm_num)).mp h
      subst hqe
      exact zmod_pow_ne_one 11465965001 3 (11465965000 / 2) 11465965000 (by decide) (by decide) (by decide) (by decide)
    rcases (Nat.Prime.dvd_mul hq).mp h with h | h
    · have hqe : q = 2 := (Nat.prime_dvd_prime_iff_eq hq (by norm_num)).mp h
      subst hqe
      exact zmod_pow_ne_one 11465965001 3 (11465965000 / 2) 11465965000 (by decide) (by decide) (by decide) (by decide)
    rcases (Nat.Prime.dvd_mul hq).mp h with h | h
    · have hqe : q = 2 := (Nat.prime_dvd_prime_iff_eq hq (by norm_num)).mp h
      subst hqe
      exact zmod_pow_ne_one 11465965001 3 (11465965000 / 2) 11465965000 (by decide) (by decide) (by decide) (by decide)
    rcases (Nat.Prime.dvd_mul hq).mp h with h | h
    · have hqe : q = 5 := (Nat.prime_dvd_prime_iff_eq hq (by norm_num)).mp h
      subst hqe
      exact zmod_pow_ne_one 11465965001 3 (11465965000 / 5) 27926394 (by decide) (by decide) (by decide) (by decide)
    rcases (Nat.Prime.dvd_mul hq).mp h with h | h
    · have hqe : q = 5 := (Nat.prime_dvd_prime_iff_eq hq (by norm_num)).mp h
      subst hqe
      exact zmod_pow_ne_one 11465965001 3 (11465965000 / 5) 27926394 (by decide) (by decide) (by decide) (by decide)
    rcases (Nat.Prime.dvd_mul hq).mp h with h | h
    · have hqe : q = 5 := (Nat.prime_dvd_prime_iff_eq hq (by norm_num)).mp h
      subst hqe
      exact zmod_pow_ne_one 11465965001 3 (11465965000 / 5) 27926394 (by decide) (by decide) (by decide) (by decide)
    rcases (Nat.Prime.dvd_mul hq).mp h with h | h
    · have hqe : q = 5 := (Nat.prime_dvd_prime_iff_eq hq (by norm_num)).mp h
      subst hqe
      exact zmod_pow_ne_one 11465965001 3 (11465965000 / 5) 27926394 (by decide) (by decide) (by decide) (by decide)
    rcases (Nat.Prime.dvd_mul hq).mp h with h | h
    · have hqe : q = 7 := (Nat.prime_dvd_prime_iff_eq hq (by norm_num)).mp h
      subst hqe
      exact zmod_pow_ne_one 11465965001 3 (11465965000 / 7) 4573270631 (by decide) (by decide) (by decide) (by decide)
    have hqe : q = 327599 := (Nat.prime_dvd_prime_iff_eq hq (by norm_num)).mp h
    subst hqe
    exact zmod_pow_ne_one 11465965001 3 (11465965000 / 327599) 7601491529 (by decide) (by decide) (by decide) (by decide)

/-- Lucas primality certificate for `1853641`. -/
theorem prime_1853641 : Nat.Prime 1853641 := by
  have hn1 : 1853641 - 1 = 1853640 := by decide
  refine lucas_primality 1853641 ((17 : ℕ) : ZMod 1853641) ?_ ?_
  · rw [hn1]
    exact zmod_pow_eq_one 1853641 17 1853640 (by decide) (by decide)
  · intro q hq hdvd
    rw [hn1] at hdvd ⊢
    have hfac : (1853640 : ℕ) = 2 * (2 * (2 * (3 * (3 * (5 * (19 * (271))))))) := by decide
    rw [hfac] at hdvd
    rcases (Nat.Prime.dvd_mul hq).mp hdvd with h | h
    · have hqe : q = 2 := (Nat.prime_dvd_prime_iff_eq hq (by norm_num)).mp h
      subst hqe
      exact zmod_pow_ne_one 1853641 17 (1853640 / 2) 1853640 (by decide) (by decide) (by decide) (by decide)
    rcases (Nat.Prime.dvd_mul hq).mp h with h | h
    · have hqe : q = 2 := (Nat.prime_dvd_prime_iff_eq hq (by norm_num)).mp h
      subst hqe
      exact zmod_pow_ne_one 1853641 17 (1853640 / 2) 1853640 (by decide) (by decide) (by decide) (by decide)
    rcases (Nat.Prime.dvd_mul hq).mp h with h | h
    · have hqe : q = 2 := (Nat.prime_dvd_prime_iff_eq hq (by norm_num)).mp h
      subst hqe
      exact zmod_pow_ne_one 1853641 17 (1853640 / 2) 1853640 (by decide) (by decide) (by decide) (by decide)
    rcases (Nat.Prime.dvd_mul hq).mp h with h | h
    · have hqe : q = 3 := (Nat.prime_dvd_prime_iff_eq hq (by norm_num)).mp h
      subst hqe
      exact zmod_pow_ne_one 1853641 17 (1853640 / 3) 536485 (by decide) (by decide) (by decide) (by decide)
    rcases (Nat.Prime.dvd_mul hq).mp h with h | h
    · have hqe : q = 3 := (Nat.prime_dvd_prime_iff_eq hq (by norm_num)).mp h
      subst hqe
      exact zmod_pow_ne_one 1853641 17 (1853640 / 3) 536485 (by decide) (by decide) (by decide) (by decide)
    rcases (Nat.Prime.dvd_mul hq).mp h with h | h
    · have hqe : q = 5 := (Nat.prime_dvd_prime_iff_eq hq (by norm_num)).mp h
      subst hqe
      exact zmod_pow_ne_one 1853641 17 (1853640 / 5) 1294646 (by decide) (by decide) (by decide) (by decide)
    rcases (Nat.Prime.dvd_mul hq).mp h with h | h
    · have hqe : q = 19 := (Nat.prime_dvd_prime_iff_eq hq (by norm_num)).mp h
      subst hqe
      exact zmod_pow_ne_one 1853641 17 (1853640 / 19) 1800158 (by decide) (by decide) (by decide) (by decide)
    have hqe : q = 271 := (Nat.prime_dvd_prime_iff_eq hq (by norm_num)).mp h
    subst hqe
    exact zmod_pow_ne_one 1853641 17 (1853640 / 271) 763656 (by decide) (by decide) (by decide) (by decide)

/-- Lucas primality certificate for `4562087`. -/
theorem prime_4562087 : Nat.Prime 4562087 := by
  have hn1 : 4562087 - 1 = 4562086 := by decide
  refine lucas_primality 4562087 ((5 : ℕ) : ZMod 4562087) ?_ ?_
  · rw [hn1]
    exact zmod_pow_eq_one 4562087 5 4562086 (by decide) (by decide)
  · intro q hq hdvd
    rw [hn1] at hdvd ⊢
    have hfac : (4562086 : ℕ) = 2 * (17 * (109 * (1231))) := by decide
    rw [hfac] at hdvd
    rcases (Nat.Prime.dvd_mul hq).mp hdvd with h | h
    · have hqe : q = 2 := (Nat.prime_dvd_prime_iff_eq hq (by norm_num)).mp h
      subst hqe
      exact zmod_pow_ne_one 4562087 5 (4562086 / 2) 4562086 (by decide) (by decide) (by decide) (by decide)
    rcases (Nat.Prime.dvd_mul hq).mp h with h | h
    · have hqe : q = 17 := (Nat.prime_dvd_prime_iff_eq hq (by norm_num)).mp h
      subst hqe
      exact zmod_pow_ne_one 4562087 5 (4562086 / 17) 476158 (by decide) (by decide) (by decide) (by decide)
    rcases (Nat.Prime.dvd_mul hq).mp h with h | h
    · have hqe : q = 109 := (Nat.prime_dvd_prime_iff_eq hq (by norm_num)).mp h
      subst hqe
      exact zmod_pow_ne_one 4562087 5 (4562086 / 109) 2845343 (by decide) (by decide) (by decide) (by decide)
    have hqe : q = 1231 := (Nat.prime_dvd_prime_iff_eq hq (by norm_num)).mp h
    subst hqe
    exact zmod_pow_ne_one 4562087 5 (4562086 / 1231) 4407835 (by decide) (by decide) (by decide) (by decide)

/-- Lucas primality certificate for `173171039`. -/
theorem prime_173171039 : Nat.Prime 173171039 := by
  have hn1 : 173171039 - 1 = 173171038 := by decide
  refine lucas_primality 173171039 ((13 : ℕ) : ZMod 173171039) ?_ ?_
  · rw [hn1]
    exact zmod_pow_eq_one 173171039 13 173171038 (by decide) (by decide)
  · intro q hq hdvd
    rw [hn1] at hdvd ⊢
    have hfac : (173171038 : ℕ) = 2 * (73 * (89 * (13327))) := by decide
    rw [hfac] at hdvd
    rcases (Nat.Prime.dvd_mul hq).mp hdvd with h | h
    · have hqe : q = 2 := (Nat.prime_dvd_prime_iff_eq hq (by norm_num)).mp h
      subst hqe
      exact zmod_pow_ne_one 173171039 13 (173171038 / 2) 173171038 (by decide) (by decide) (by decide) (by decide)
    rcases (Nat.Prime.dvd_mul hq).mp h with h | h
    · have hqe : q = 73 := (Nat.prime_dvd_prime_iff_eq hq (by norm_num)).mp h
      subst hqe
      exact zmod_pow_ne_one 173171039 13 (173171038 / 73) 152195228 (by decide) (by decide) (by decide) (by decide)
    rcases (Nat.Prime.dvd_mul hq).mp h with h | h
    · have hqe : q = 89 := (Nat.prime_dvd_prime_iff_eq hq (by norm_num)).mp h
      subst hqe
      exact zmod_pow_ne_one 173171039 13 (173171038 / 89) 63003907 (by decide) (by decide) (by decide) (by decide)
    have hqe : q = 13327 := (Nat.prime_dvd_prime_iff_eq hq (by norm_num)).mp h
    subst hqe
    exact zmod_pow_ne_one 173171039 13 (173171038 / 13327) 102893123 (by decide) (by decide) (by decide) (by decide)

/-- Lucas primality certificate for `1263766531`. -/
theorem prime_1263766531 : Nat.Prime 1263766531 := by
  have hn1 : 1263766531 - 1 = 1263766530 := by decide
  refine lucas_primality 1263766531 ((10 : ℕ) : ZMod 1263766531) ?_ ?_
  · rw [hn1]
    exact zmod_pow_eq_one 1263766531 10 1263766530 (by decide) (by decide)
  · intro q hq hdvd
    rw [hn1] at hdvd ⊢
    have hfac : (1263766530 : ℕ) = 2 * (3 * (5 * (13 * (911 * (3557))))) := by decide
    rw [hfac] at hdvd
    rcases (Nat.Prime.dvd_mul hq).mp hdvd with h | h
    · have hqe : q = 2 := (Nat.prime_dvd_prime_iff_eq hq (by norm_num)).mp h
      subst hqe
      exact zmod_pow_ne_one 1263766531 10 (1263766530 / 2) 1263766530 (by decide) (by decide) (by decide) (by decide)
    rcases (Nat.Prime.dvd_mul hq).mp h with h | h
    · have hqe : q = 3 := (Nat.prime_dvd_prime_iff_eq hq (by norm_num)).mp h
      subst hqe
      exact zmod_pow_ne_one 1263766531 10 (1263766530 / 3) 768732968 (by decide) (by decide) (by decide) (by decide)
    rcases (Nat.Prime.dvd_mul hq).mp h with h | h
    · have hqe : q = 5 := (Nat.prime_dvd_prime_iff_eq hq (by norm_num)).mp h
      subst hqe
      exact zmod_pow_ne_one 1263766531 10 (1263766530 / 5) 736637955 (by decide) (by decide) (by decide) (by decide)
    rcases (Nat.Prime.dvd_mul hq).mp h with h | h
    · have hqe : q = 13 := (Nat.prime_dvd_prime_iff_eq hq (by norm_num)).mp h
      subst hqe
      exact zmod_pow_ne_one 1263766531 10 (1263766530 / 13) 79716405 (by decide) (by decide) (by decide) (by decide)
    rcases (Nat.Prime.dvd_mul hq).mp h with h | h
    · have hqe : q = 911 := (Nat.prime_dvd_prime_iff_eq hq (by norm_num)).mp h
      subst hqe
      exact zmod_pow_ne_one 1263766531 10 (1263766530 / 911) 125721785 (by decide) (by decide) (by decide) (by decide)
    have hqe : q = 3557 := (Nat.prime_dvd_prime_iff_eq hq (by norm_num)).mp h
    subst hqe
    exact zmod_pow_ne_one 1263766531 10 (1263766530 / 3557) 938992354 (by decide) (by decide) (by decide) (by decide)

/-- Lucas primality certificate for `35385462869`. -/
theorem prime_35385462869 : Nat.Prime 35385462869 := by
  have hn1 : 35385462869 - 1 = 35385462868 := by decide
  refine lucas_primality 35385462869 ((2 : ℕ) : ZMod 35385462869) ?_ ?_
  · rw [hn1]
    exact zmod_pow_eq_one 35385462869 2 35385462868 (by decide) (by decide)
  · intro q hq hdvd
    rw [hn1] at hdvd ⊢
    have hfac : (35385462868 : ℕ) = 2 * (2 * (7 * (1263766531))) := by decide
    rw [hfac] at hdvd
    rcases (Nat.Prime.dvd_mul hq).mp hdvd with h | h
    · have hqe : q = 2 := (Nat.prime_dvd_prime_iff_eq hq (by norm_num)).mp h
      subst hqe
      exact zmod_pow_ne_one 35385462869 2 (35385462868 / 2) 35385462868 (by decide) (by decide) (by decide) (by decide)
    rcases (Nat.Prime.dvd_mul hq).mp h with h | h
    · have hqe : q = 2 := (Nat.prime_dvd_prime_iff_eq hq (by norm_num)).mp h
      subst hqe
      exact zmod_pow_ne_one 35385462869 2 (35385462868 / 2) 35385462868 (by decide) (by decide) (by decide) (by decide)
    rcases (Nat.Prime.dvd_mul hq).mp h with h | h
    · have hqe : q = 7 := (Nat.prime_dvd_prime_iff_eq hq (by norm_num)).mp h
      subst hqe
      exact zmod_pow_ne_one 35385462869 2 (35385462868 / 7) 10975929881 (by decide) (by decide) (by decide) (by decide)
    have hqe : q = 1263766531 := (Nat.prime_dvd_prime_iff_eq hq prime_1263766531).mp h
    subst hqe
    exact zmod_pow_ne_one 35385462869 2 (35385462868 / 1263766531) 268435456 (by decide) (by decide) (by decide) (by decide)

/-- Lucas primality certificate for `2480874801745591`. -/
theorem prime_2480874801745591 : Nat.Prime 2480874801745591 := by
  have hn1 : 2480874801745591 - 1 = 2480874801745590 := by decide
  refine lucas_primality 2480874801745591 ((6 : ℕ) : ZMod 2480874801745591) ?_ ?_
  · rw [hn1]
    exact zmod_pow_eq_one 2480874801745591 6 2480874801745590 (by decide) (by decide)
  · intro q hq hdvd
    rw [hn1] at hdvd ⊢
    have hfac : (2480874801745590 : ℕ) = 2 * (3 * (3 * (5 * (19 * (41 * (35385462869)))))) := by decide
    rw [hfac] at hdvd
    rcases (Nat.Prime.dvd_mul hq).mp hdvd with h | h
    · have hqe : q = 2 := (Nat.prime_dvd_prime_iff_eq hq (by norm_num)).mp h
      subst hqe
      exact zmod_pow_ne_one 2480874801745591 6 (2480874801745590 / 2) 2480874801745590 (by decide) (by decide) (by decide) (by decide)
    rcases (Nat.Prime.dvd_mul hq).mp h with h | h
    · have hqe : q = 3 := (Nat.prime_dvd_prime_iff_eq hq (by norm_num)).mp h
      subst hqe
      exact zmod_pow_ne_one 2480874801745591 6 (2480874801745590 / 3) 2407620892277407 (by decide) (by decide) (by decide) (by decide)
    rcases (Nat.Prime.dvd_mul hq).mp h with h | h
    · have hqe : q = 3 := (Nat.prime_dvd_prime_iff_eq hq (by norm_num)).mp h
      subst hqe
      exact zmod_pow_ne_one 2480874801745591 6 (2480874801745590 / 3) 2407620892277407 (by decide) (by decide) (by decide) (by decide)
    rcases (Nat.Prime.dvd_mul hq).mp h with h | h
    · have hqe : q = 5 := (Nat.prime_dvd_prime_iff_eq hq (by norm_num)).mp h
      subst hqe
      exact zmod_pow_ne_one 2480874801745591 6 (2480874801745590 / 5) 1827406440318507 (by decide) (by decide) (by decide) (by decide)
    rcases (Nat.Prime.dvd_mul hq).mp h with h | h
    · have hqe : q = 19 := (Nat.prime_dvd_prime_iff_eq hq (by norm_num)).mp h
      subst hqe
      exact zmod_pow_ne_one 2480874801745591 6 (2480874801745590 / 19) 1172307907851451 (by decide) (by decide) (by decide) (by decide)
    rcases (Nat.Prime.dvd_mul hq).mp h with h | h
    · have hqe : q = 41 := (Nat.prime_dvd_prime_iff_eq hq (by norm_num)).mp h
      subst hqe
      exact zmod_pow_ne_one 2480874801745591 6 (2480874801745590 / 41) 2279967835349712 (by decide) (by decide) (by decide) (by decide)
    have hqe : q = 35385462869 := (Nat.prime_dvd_prime_iff_eq hq prime_35385462869).mp h
    subst hqe
    exact zmod_pow_ne_one 2480874801745591 6 (2480874801745590 / 35385462869) 1811331258890614 (by decide) (by decide) (by decide) (by decide)

/-- Lucas primality certificate for `13427688667394608761327070753331941386769`. -/
theorem prime_13427688667394608761327070753331941386769 : Nat.Prime 13427688667394608761327070753331941386769 := by
  have hn1 : 13427688667394608761327070753331941386769 - 1 = 13427688667394608761327070753331941386768 := by decide
  refine lucas_primality 13427688667394608761327070753331941386769 ((17 : ℕ) : ZMod 13427688667394608761327070753331941386769) ?_ ?_
  · rw [hn1]
    exact zmod_pow_eq_one 13427688667394608761327070753331941386769 17 13427688667394608761327070753331941386768 (by decide) (by decide)
  · intro q hq hdvd
    rw [hn1] at hdvd ⊢
    have hfac : (13427688667394608761327070753331941386768 : ℕ) = 2 * (2 * (2 * (2 * (3 * (7 * (11 * (1853641 * (4562087 * (173171039 * (2480874801745591)))))))))) := by decide
    rw [hfac] at hdvd
    rcases (Nat.Prime.dvd_mul hq).mp hdvd with h | h
    · have hqe : q = 2 := (Nat.prime_dvd_prime_iff_eq hq (by norm_num)).mp h
      subst hqe
      exact zmod_pow_ne_one 13427688667394608761327070753331941386769 17 (13427688667394608761327070753331941386768 / 2) 13427688667394608761327070753331941386768 (by decide) (by decide) (by decide) (by decide)
    rcases (Nat.Prime.dvd_mul hq).mp h with h | h
    · have hqe : q = 2 := (Nat.prime_dvd_prime_iff_eq hq (by norm_num)).mp h
      subst hqe
      exact zmod_pow_ne_one 13427688667394608761327070753331941386769 17 (13427688667394608761327070753331941386768 / 2) 13427688667394608761327070753331941386768 (by decide) (by decide) (by decide) (by decide)
    rcases (Nat.Prime.dvd_mul hq).mp h with h | h
    · have hqe : q = 2 := (Nat.prime_dvd_prime_iff_eq hq (by norm_num)).mp h
      subst hqe
      exact zmod_pow_ne_one 13427688667394608761327070753331941386769 17 (13427688667394608761327070753331941386768 / 2) 13427688667394608761327070753331941386768 (by decide) (by decide) (by decide) (by decide)
    rcases (Nat.Prime.dvd_mul hq).mp h with h | h
    · have hqe : q = 2 := (Nat.prime_dvd_prime_iff_eq hq (by norm_num)).mp h
      subst hqe
      exact zmod_pow_ne_one 13427688667394608761327070753331941386769 17 (13427688667394608761327070753331941386768 / 2) 13427688667394608761327070753331941386768 (by decide) (by decide) (by decide) (by decide)
    rcases (Nat.Prime.dvd_mul hq).mp h with h | h
    · have hqe : q = 3 := (Nat.prime_dvd_prime_iff_eq hq (by norm_num)).mp h
      subst hqe
      exact zmod_pow_ne_one 13427688667394608761327070753331941386769 17 (13427688667394608761327070753331941386768 / 3) 2685568617321800533408078349748043375580 (by decide) (by decide) (by decide) (by decide)
    rcases (Nat.Prime.dvd_mul hq).mp h with h | h
    · have hqe : q = 7 := (Nat.prime_dvd_prime_iff_eq hq (by norm_num)).mp h
      subst hqe
      exact zmod_pow_ne_one 13427688667394608761327070753331941386769 17 (13427688667394608761327070753331941386768 / 7) 3365167042067484594214394565332554156896 (by decide) (by decide) (by decide) (by decide)
    rcases (Nat.Prime.dvd_mul hq).mp h with h | h
    · have hqe : q = 11 := (Nat.prime_dvd_prime_iff_eq hq (by norm_num)).mp h
      subst hqe
      exact zmod_pow_ne_one 13427688667394608761327070753331941386769 17 (13427688667394608761327070753331941386768 / 11) 3236340864352405644842122077993382124237 (by decide) (by decide) (by decide) (by decide)
    rcases (Nat.Prime.dvd_mul hq).mp h with h | h
    · have hqe : q = 1853641 := (Nat.prime_dvd_prime_iff_eq hq prime_1853641).mp h
      subst hqe
      exact zmod_pow_ne_one 13427688667394608761327070753331941386769 17 (13427688667394608761327070753331941386768 / 1853641) 2667543545659835767658605482012024096425 (by decide) (by decide) (by decide) (by decide)
    rcases (Nat.Prime.dvd_mul hq).mp h with h | h
    · have hqe : q = 4562087 := (Nat.prime_dvd_prime_iff_eq hq prime_4562087).mp h
      subst hqe
      exact zmod_pow_ne_one 13427688667394608761327070753331941386769 17 (13427688667394608761327070753331941386768 / 4562087) 4447233623349539365335128882050056364534 (by decide) (by decide) (by decide) (by decide)
    rcases (Nat.Prime.dvd_mul hq).mp h with h | h
    · have hqe : q = 173171039 := (Nat.prime_dvd_prime_iff_eq hq prime_173171039).mp h
      subst hqe
      exact zmod_pow_ne_one 13427688667394608761327070753331941386769 17 (13427688667394608761327070753331941386768 / 173171039) 10302702663714691208296195508137108065110 (by decide) (by decide) (by decide) (by decide)
    have hqe : q = 2480874801745591 := (Nat.prime_dvd_prime_iff_eq hq prime_2480874801745591).mp h
    subst hqe
    exact zmod_pow_ne_one 13427688667394608761327070753331941386769 17 (13427688667394608761327070753331941386768 / 2480874801745591) 10265023407933947886775309589286649233988 (by decide) (by decide) (by decide) (by decide)

/-- Lucas primality certificate for `P`. -/
theorem P_prime : Nat.Prime P := by
  have hn1 : P - 1 = 21888242871839275222246405745257275088696311157297823662689037894645226208582 := by decide
  refine lucas_primality P ((3 : ℕ) : ZMod P) ?_ ?_
  · rw [hn1]
    exact zmod_pow_eq_one P 3 21888242871839275222246405745257275088696311157297823662689037894645226208582 (by decide) (by decide)
  · intro q hq hdvd
    rw [hn1] at hdvd ⊢
    have hfac : (21888242871839275222246405745257275088696311157297823662689037894645226208582 : ℕ) = 2 * (3 * (3 * (13 * (29 * (67 * (229 * (311 * (983 * (11003 * (405928799 * (11465965001 * (13427688667394608761327070753331941386769)))))))))))) := by decide
    rw [hfac] at hdvd
    rcases (Nat.Prime.dvd_mul hq).mp hdvd with h | h
    · have hqe : q = 2 := (Nat.prime_dvd_prime_iff_eq hq (by norm_num)).mp h
      subst hqe
      exact zmod_pow_ne_one P 3 (21888242871839275222246405745257275088696311157297823662689037894645226208582 / 2) 21888242871839275222246405745257275088696311157297823662689037894645226208582 (by decide) (by decide) (by decide) (by decide)
    rcases (Nat.Prime.dvd_mul hq).mp h with h | h
    · have hqe : q = 3 := (Nat.prime_dvd_prime_iff_eq hq (by norm_num)).mp h
      subst hqe
      exact zmod_pow_ne_one P 3 (21888242871839275222246405745257275088696311157297823662689037894645226208582 / 3) 21888242871839275220042445260109153167277707414472061641714758635765020556616 (by decide) (by decide) (by decide) (by decide)
    rcases (Nat.Prime.dvd_mul hq).mp h with h | h
    · have hqe : q = 3 := (Nat.prime_dvd_prime_iff_eq hq (by norm_num)).mp h
      subst hqe
      exact zmod_pow_ne_one P 3 (21888242871839275222246405745257275088696311157297823662689037894645226208582 / 3) 21888242871839275220042445260109153167277707414472061641714758635765020556616 (by decide) (by decide) (by decide) (by decide)
    rcases (Nat.Prime.dvd_mul hq).mp h with h | h
    · have hqe : q = 13 := (Nat.prime_dvd_prime_iff_eq hq (by norm_num)).mp h
      subst hqe
      exact zmod_pow_ne_one P 3 (21888242871839275222246405745257275088696311157297823662689037894645226208582 / 13) 19285204852924686474994479317461708819641446017783043034637969515423763351953 (by decide) (by decide) (by decide) (by decide)
    rcases (Nat.Prime.dvd_mul hq).mp h with h | h
    · have hqe : q = 29 := (Nat.prime_dvd_prime_iff_eq hq (by norm_num)).mp h
      subst hqe
      exact zmod_pow_ne_one P 3 (21888242871839275222246405745257275088696311157297823662689037894645226208582 / 29) 19433260757112203149040899379563167323735763231524821801948606396997821674113 (by decide) (by decide) (by decide) (by decide)
    rcases (Nat.Prime.dvd_mul hq).mp h with h | h
    · have hqe : q = 67 := (Nat.prime_dvd_prime_iff_eq hq (by norm_num)).mp h
      subst hqe
      exact zmod_pow_ne_one P 3 (21888242871839275222246405745257275088696311157297823662689037894645226208582 / 67) 21416043524944433016670818817864259343946572146370358017997215485720702071283 (by decide) (by decide) (by decide) (by decide)
    rcases (Nat.Prime.dvd_mul hq).mp h with h | h
    · have hqe : q = 229 := (Nat.prime_dvd_prime_iff_eq hq (by norm_num)).mp h
      subst hqe
      exact zmod_pow_ne_one P 3 (21888242871839275222246405745257275088696311157297823662689037894645226208582 / 229) 10247490365858481317912223827250247247828105120952384175173060052493082761774 (by decide) (by decide) (by decide) (by decide)
    rcases (Nat.Prime.dvd_mul hq).mp h with h | h
    · have hqe : q = 311 := (Nat.prime_dvd_prime_iff_eq hq (by norm_num)).mp h
      subst hqe
      exact zmod_pow_ne_one P 3 (21888242871839275222246405745257275088696311157297823662689037894645226208582 / 311) 4896153894909549175696450898459562220401524575804930873880135265551520772785 (by decide) (by decide) (by decide) (by decide)
    rcases (Nat.Prime.dvd_mul hq).mp h with h | h
    · have hqe : q = 983 := (Nat.prime_dvd_prime_iff_eq hq (by norm_num)).mp h
      subst hqe
      exact zmod_pow_ne_one P 3 (21888242871839275222246405745257275088696311157297823662689037894645226208582 / 983) 16688597666022887646690163467638290937986941906618104641626128998084292531986 (by decide) (by decide) (by decide) (by decide)
    rcases (Nat.Prime.dvd_mul hq).mp h with h | h
    · have hqe : q = 11003 := (Nat.prime_dvd_prime_iff_eq hq (by norm_num)).mp h
      subst hqe
      exact zmod_pow_ne_one P 3 (21888242871839275222246405745257275088696311157297823662689037894645226208582 / 11003) 6812761850782926297230824150434286700974771477980891240950366507765396668150 (by decide) (by decide) (by decide) (by decide)
    rcases (Nat.Prime.dvd_mul hq).mp h with h | h
    · have hqe : q = 405928799 := (Nat.prime_dvd_prime_iff_eq hq prime_405928799).mp h
      subst hqe
      exact zmod_pow_ne_one P 3 (21888242871839275222246405745257275088696311157297823662689037894645226208582 / 405928799) 4037977894466302416077673003712391021526016837688049215215365469034689108930 (by decide) (by decide) (by decide) (by decide)
    rcases (Nat.Prime.dvd_mul hq).mp h with h | h
    · have hqe : q = 11465965001 := (Nat.prime_dvd_prime_iff_eq hq prime_11465965001).mp h
      subst hqe
      exact zmod_pow_ne_one P 3 (21888242871839275222246405745257275088696311157297823662689037894645226208582 / 11465965001) 5730636994510773491206367835236806183028292339446643256980404715002489681200 (by decide) (by decide) (by decide) (by decide)
    have hqe : q = 13427688667394608761327070753331941386769 := (Nat.prime_dvd_prime_iff_eq hq prime_13427688667394608761327070753331941386769).mp h
    subst hqe
    exact zmod_pow_ne_one P 3 (21888242871839275222246405745257275088696311157297823662689037894645226208582 / 13427688667394608761327070753331941386769) 3079850386165776373304302593529140662833478451685277064343379560295587684005 (by decide) (by decide) (by decide) (by decide)

instance : Fact (Nat.Prime P) := ⟨P_prime⟩

/-! ### The base field `Fq`: byte encoding, square roots, inversion.

`Fq` itself (file `fq.rs`) is an external collaborator of the source under
audit, so the operations below are modelled from the spec: canonical
fixed-width byte encode/decode (decode fails on a non-canonical value,
i.e. one at least the modulus), a square root failing exactly on
non-residues, and modular inversion.  The canonical 32-byte encoding is
represented by its little-endian value: byte `i` is `n / 256^i % 256`,
so byte 0 is the lowest-order byte and byte 31 carries the top bits
(the modulus has 254 bits, so bit 7 of byte 31 is always clear). -/

namespace Fq

/-- `Fq::from_raw`: interpret four little-endian 64-bit limbs (reduced mod `P`). -/
def from_raw (a b c d : ℕ) : Fq :=
  ((a + b * 2 ^ 64 + c * 2 ^ 128 + d * 2 ^ 192 : ℕ) : Fq)

/-- Modelled from the spec: canonical byte encoding of a field element
(value of the 32-byte little-endian array). -/
def to_bytes (a : Fq) : ℕ := a.val

/-- Modelled from the spec: canonical byte decoding, rejecting values that
are not reduced modulo `P`. -/
def from_bytes (n : ℕ) : Option Fq := if n < P then some ((n : ℕ) : Fq) else none

/-- The square-root candidate `a ^ ((P+1)/4)` (valid since `P ≡ 3 mod 4`). -/
def sqrtCand (a : Fq) : Fq := ((powMod a.val ((P + 1) / 4) P : ℕ) : Fq)

/-- Modelled from the spec: field square root, failing when the input is not
a quadratic residue and otherwise succeeding with one canonical root. -/
def sqrt (a : Fq) : Option Fq :=
  if sqrtCand a * sqrtCand a = a then some (sqrtCand a) else none

/-- Modelled from the spec: modular inversion, via Fermat. -/
def inv (a : Fq) : Fq := ((powMod a.val (P - 2) P : ℕ) : Fq)

theorem natCast_val_self (a : Fq) : ((a.val : ℕ) : Fq) = a :=
  ZMod.natCast_rightInverse a

theorem sqrtCand_eq (a : Fq) : sqrtCand a = a ^ ((P + 1) / 4) := by
  rw [sqrtCand, ← zmod_pow_eq_powMod P a.val ((P + 1) / 4) (by decide), natCast_val_self]

theorem sqrt_correct {a c : Fq} (h : sqrt a = some c) : c * c = a := by
  rw [sqrt] at h
  split_ifs at h with hc
  cases h
  exact hc

theorem pexp_split : (P + 1) / 4 + (P + 1) / 4 = (P - 1) / 2 + 1 := by decide

theorem pexp_ne_zero : (P + 1) / 4 + (P + 1) / 4 ≠ 0 := by decide

theorem phalf_eq : P / 2 = (P - 1) / 2 := by decide

theorem podd : P % 2 = 1 := by decide

theorem psub2_succ : (P - 2) + 1 = P - 1 := by decide

theorem euler_pow_one {a : Fq} (ha : a ≠ 0) (h : IsSquare a) : a ^ ((P - 1) / 2) = 1 := by
  have h1 := (ZMod.euler_criterion P ha).mp h
  rwa [phalf_eq] at h1

theorem sqrtCand_mul_self {a : Fq} (h : IsSquare a) : sqrtCand a * sqrtCand a = a := by
  rw [sqrtCand_eq, ← pow_add]
  by_cases ha : a = 0
  · subst ha
    rw [zero_pow pexp_ne_zero]
  · rw [pexp_split, pow_succ, euler_pow_one ha h, one_mul]

theorem sqrt_isSome {a : Fq} (h : IsSquare a) : (sqrt a).isSome = true := by
  rw [sqrt, if_pos (sqrtCand_mul_self h), Option.isSome_some]

theorem mul_inv_cancel_right {a : Fq} (ha : a ≠ 0) : a * inv a = 1 := by
  rw [inv, ← zmod_pow_eq_powMod P a.val (P - 2) (by decide), natCast_val_self, mul_comm,
    ← pow_succ, psub2_succ]
  exact ZMod.pow_card_sub_one_eq_one ha

/-- Negation flips the low bit of the canonical encoding of a nonzero element
(the modulus is odd). -/
theorem neg_parity {y : Fq} (hy : y ≠ 0) : (-y).val % 2 ≠ y.val % 2 := by
  have hv : (-y).val = P - y.val := by
    rw [ZMod.neg_val]
    simp [hy]
  have h0 : y.val ≠ 0 := fun hz => hy ((ZMod.val_eq_zero y).mp hz)
  have hlt : y.val < P := ZMod.val_lt y
  have hodd := podd
  rw [hv]
  omega

theorem eq_or_eq_neg_of_sq_eq {y c : Fq} (h : c * c = y * y) : c = y ∨ c = -y := by
  have hf : (c - y) * (c + y) = 0 := by linear_combination h
  rcases mul_eq_zero.mp hf with h1 | h1
  · exact Or.inl (sub_eq_zero.mp h1)
  · exact Or.inr (eq_neg_of_add_eq_zero_left h1)

end Fq

/-! ### The quadratic extension field `Fq2`.

`Fq2` (file `fq2.rs`) is likewise an external collaborator.  Modelled from
the spec: the degree-2 extension of the base field, realized as
`Fq[u]/(u² + 1)` (valid since `P ≡ 3 mod 4`), with the 64-byte encoding
being the two 32-byte limb encodings of `c0` and `c1`. -/

@[ext] structure Fq2 where
  c0 : Fq
  c1 : Fq
deriving DecidableEq

namespace Fq2

/-- Component-wise addition. -/
def add (a b : Fq2) : Fq2 := ⟨a.c0 + b.c0, a.c1 + b.c1⟩

/-- Component-wise negation. -/
def neg (a : Fq2) : Fq2 := ⟨-a.c0, -a.c1⟩

/-- Multiplication in `Fq[u]/(u² + 1)`. -/
def mul (a b : Fq2) : Fq2 := ⟨a.c0 * b.c0 - a.c1 * b.c1, a.c0 * b.c1 + a.c1 * b.c0⟩

instance : Zero Fq2 := ⟨⟨0, 0⟩⟩
instance : One Fq2 := ⟨⟨1, 0⟩⟩
instance : Add Fq2 := ⟨add⟩
instance : Neg Fq2 := ⟨neg⟩
instance : Mul Fq2 := ⟨mul⟩

@[simp] theorem zero_c0 : (0 : Fq2).c0 = 0 := rfl
@[simp] theorem zero_c1 : (0 : Fq2).c1 = 0 := rfl
@[simp] theorem one_c0 : (1 : Fq2).c0 = 1 := rfl
@[simp] theorem one_c1 : (1 : Fq2).c1 = 0 := rfl
@[simp] theorem add_c0 (a b : Fq2) : (a + b).c0 = a.c0 + b.c0 := rfl
@[simp] theorem add_c1 (a b : Fq2) : (a + b).c1 = a.c1 + b.c1 := rfl
@[simp] theorem neg_c0 (a : Fq2) : (-a).c0 = -a.c0 := rfl
@[simp] theorem neg_c1 (a : Fq2) : (-a).c1 = -a.c1 := rfl
@[simp] theorem mul_c0 (a b : Fq2) : (a * b).c0 = a.c0 * b.c0 - a.c1 * b.c1 := rfl
@[simp] theorem mul_c1 (a b : Fq2) : (a * b).c1 = a.c0 * b.c1 + a.c1 * b.c0 := rfl

instance addCommGroup : AddCommGroup Fq2 := by
  refine
    { add := (· + ·)
      zero := (0 : Fq2)
      sub := fun a b => a + -b
      neg := Neg.neg
      nsmul := nsmulRec
      zsmul := zsmulRec
      add_assoc := ?_
      zero_add := ?_
      add_zero := ?_
      neg_add_cancel := ?_
      add_comm := ?_ } <;>
    intros <;> ext <;> simp <;> ring

@[simp] theorem sub_c0 (a b : Fq2) : (a - b).c0 = a.c0 - b.c0 := by
  rw [sub_eq_add_neg, add_c0, neg_c0, ← sub_eq_add_neg]
@[simp] theorem sub_c1 (a b : Fq2) : (a - b).c1 = a.c1 - b.c1 := by
  rw [sub_eq_add_neg, add_c1, neg_c1, ← sub_eq_add_neg]

instance commRing : CommRing Fq2 := by
  refine
    { Fq2.addCommGroup with
      mul := (· * ·)
      one := (1 : Fq2)
      npow := npowRec
      left_distrib := ?_
      right_distrib := ?_
      zero_mul := ?_
      mul_zero := ?_
      mul_assoc := ?_
      one_mul := ?_
      mul_one := ?_
      mul_comm := ?_ } <;>
    intros <;> ext <;> simp <;> ring

instance : Nontrivial Fq2 :=
  ⟨0, 1, by
    intro h
    have h0 := congrArg Fq2.c0 h
    simp at h0⟩

/-- The field norm of `Fq2` down to `Fq`. -/
def norm (a : Fq2) : Fq := a.c0 * a.c0 + a.c1 * a.c1

theorem norm_mul (a b : Fq2) : norm (a * b) = norm a * norm b := by
  simp only [norm, mul_c0, mul_c1]
  ring

theorem pmod4 : P % 4 = 3 := by decide

theorem norm_eq_zero_iff {a : Fq2} : norm a = 0 ↔ a = 0 := by
  constructor
  · intro h
    by_cases h1 : a.c1 = 0
    · rw [norm, h1, mul_zero, add_zero, mul_self_eq_zero] at h
      ext <;> simp [h, h1]
    · exfalso
      have hinv : a.c1 * (a.c1)⁻¹ = 1 := mul_inv_cancel₀ h1
      have hr : ((a.c0 * (a.c1)⁻¹) * (a.c0 * (a.c1)⁻¹)) = -1 := by
        rw [norm] at h
        linear_combination ((a.c1)⁻¹ * (a.c1)⁻¹) * h - (1 + a.c1 * (a.c1)⁻¹) * hinv
      have hsq : IsSquare (-1 : Fq) := ⟨a.c0 * (a.c1)⁻¹, hr.symm⟩
      exact (ZMod.exists_sq_eq_neg_one_iff.mp hsq) pmod4
  · rintro rfl
    simp [norm]

instance : NoZeroDivisors Fq2 where
  eq_zero_or_eq_zero_of_mul_eq_zero {a b} h := by
    have hn : norm a * norm b = 0 := by rw [← norm_mul, h]; simp [norm]
    rcases mul_eq_zero.mp hn with h1 | h1
    · exact Or.inl (norm_eq_zero_iff.mp h1)
    · exact Or.inr (norm_eq_zero_iff.mp h1)

theorem eq_or_eq_neg_of_mul_self_eq {y c : Fq2} (h : c * c = y * y) : c = y ∨ c = -y := by
  have hf : (c - y) * (c + y) = 0 := by linear_combination h
  rcases mul_eq_zero.mp hf with h1 | h1
  · exact Or.inl (sub_eq_zero.mp h1)
  · exact Or.inr (eq_neg_of_add_eq_zero_left h1)

/-- Modelled from the spec: canonical 64-byte encoding, two little-endian
32-byte limbs (`c0` then `c1`). -/
def to_bytes (a : Fq2) : ℕ := Fq.to_bytes a.c0 + Fq.to_bytes a.c1 * 2 ^ 256

/-- Modelled from the spec: canonical byte decoding, each limb must be reduced. -/
def from_bytes (n : ℕ) : Option Fq2 :=
  match Fq.from_bytes (n % 2 ^ 256), Fq.from_bytes (n / 2 ^ 256) with
  | some x0, some x1 => some ⟨x0, x1⟩
  | _, _ => none

end Fq2

/-- The inverse of 2 in `Fq`. -/
def Fq.half : Fq := (((P + 1) / 2 : ℕ) : Fq)

theorem Fq.two_mul_half : (2 : Fq) * Fq.half = 1 := by decide

theorem Fq.two_ne_zero_base : (2 : Fq) ≠ 0 := by decide

namespace Fq2

/-- Wrap an optional base-field root into a one-element candidate list. -/
def ocand (t : Option Fq) (f : Fq → Fq2) : List Fq2 :=
  match t with
  | some r => [f r]
  | none => []

/-- Candidate square roots of `a`, from the closed form for square roots in
`Fq[u]/(u² + 1)`: with `s = √(norm a)`, the root has first limb
`√((a.c0 ± s)/2)`, plus the degenerate purely-real and purely-imaginary cases. -/
def sqrtCands (a : Fq2) : List Fq2 :=
  match Fq.sqrt (norm a) with
  | none => []
  | some s =>
    ocand (Fq.sqrt ((a.c0 + s) * Fq.half)) (fun x0 => ⟨x0, a.c1 * Fq.inv (2 * x0)⟩) ++
    ocand (Fq.sqrt ((a.c0 - s) * Fq.half)) (fun x0 => ⟨x0, a.c1 * Fq.inv (2 * x0)⟩) ++
    ocand (Fq.sqrt a.c0) (fun r => ⟨r, 0⟩) ++
    ocand (Fq.sqrt (-a.c0)) (fun r => ⟨0, r⟩)

/-- Modelled from the spec: extension-field square root, failing when the
input is not a quadratic residue and otherwise succeeding with one canonical
root (the first verified candidate). -/
def sqrt (a : Fq2) : Option Fq2 := (sqrtCands a).find? (fun z => decide (z * z = a))

theorem mem_ocand {t : Option Fq} (f : Fq → Fq2) {r : Fq} (h : t = some r) :
    f r ∈ ocand t f := by
  subst h
  simp [ocand]

theorem sqrt_sq_eq {a z : Fq2} (h : sqrt a = some z) : z * z = a := by
  rw [sqrt] at h
  have hp := List.find?_some h
  exact of_decide_eq_true hp

/-- The generic candidate with nonzero first limb squares back to `y * y`. -/
theorem cand_sq {y : Fq2} (hy0 : y.c0 ≠ 0) {x0 : Fq} (hx0sq : x0 * x0 = y.c0 * y.c0) :
    (⟨x0, (y * y).c1 * Fq.inv (2 * x0)⟩ : Fq2) * ⟨x0, (y * y).c1 * Fq.inv (2 * x0)⟩ = y * y := by
  have hx0ne : x0 ≠ 0 := by
    intro hz
    rw [hz, mul_zero] at hx0sq
    exact hy0 (mul_self_eq_zero.mp hx0sq.symm)
  have h2x0 : (2 : Fq) * x0 ≠ 0 := mul_ne_zero Fq.two_ne_zero_base hx0ne
  have hinv : ((2 : Fq) * x0) * Fq.inv (2 * x0) = 1 := Fq.mul_inv_cancel_right h2x0
  have hx1mul : ((y * y).c1 * Fq.inv (2 * x0)) * (2 * x0) = (y * y).c1 := by
    calc (y * y).c1 * Fq.inv (2 * x0) * (2 * x0)
        = (y * y).c1 * (((2 : Fq) * x0) * Fq.inv (2 * x0)) := by ring
      _ = (y * y).c1 := by rw [hinv, mul_one]
  simp only [mul_c1] at hx1mul
  have hx1sq : (((y.c0 * y.c1 + y.c1 * y.c0) : Fq) * Fq.inv (2 * x0)) *
      ((y.c0 * y.c1 + y.c1 * y.c0) * Fq.inv (2 * x0)) = y.c1 * y.c1 := by
    have hcan : ((2 : Fq) * x0) * ((2 : Fq) * x0) ≠ 0 := mul_ne_zero h2x0 h2x0
    apply mul_right_cancel₀ hcan
    calc ((y.c0 * y.c1 + y.c1 * y.c0) * Fq.inv (2 * x0)) *
          ((y.c0 * y.c1 + y.c1 * y.c0) * Fq.inv (2 * x0)) *
          (((2 : Fq) * x0) * ((2 : Fq) * x0))
        = (((y.c0 * y.c1 + y.c1 * y.c0) * Fq.inv (2 * x0)) * (2 * x0)) *
          (((y.c0 * y.c1 + y.c1 * y.c0) * Fq.inv (2 * x0)) * (2 * x0)) := by ring
      _ = (y.c0 * y.c1 + y.c1 * y.c0) * (y.c0 * y.c1 + y.c1 * y.c0) := by rw [hx1mul]
      _ = y.c1 * y.c1 * (((2 : Fq) * x0) * ((2 : Fq) * x0)) := by
          linear_combination (-4 * (y.c1 * y.c1)) * hx0sq
  ext
  · simp only [mul_c0, mul_c1]
    linear_combination hx0sq - hx1sq
  · simp only [mul_c1]
    linear_combination hx1mul

theorem sqrt_isSome_of_isSquare {a : Fq2} (h : IsSquare a) : (sqrt a).isSome = true := by
  obtain ⟨y, rfl⟩ := h
  have hn : IsSquare (norm (y * y)) := by
    rw [norm_mul]
    exact ⟨norm y, rfl⟩
  obtain ⟨s, hs⟩ := Option.isSome_iff_exists.mp (Fq.sqrt_isSome hn)
  have hss : s * s = norm y * norm y := by
    have hq := Fq.sqrt_correct hs
    rwa [norm_mul] at hq
  have hcands : sqrtCands (y * y) =
      ocand (Fq.sqrt (((y * y).c0 + s) * Fq.half))
        (fun x0 => ⟨x0, (y * y).c1 * Fq.inv (2 * x0)⟩) ++
      ocand (Fq.sqrt (((y * y).c0 - s) * Fq.half))
        (fun x0 => ⟨x0, (y * y).c1 * Fq.inv (2 * x0)⟩) ++
      ocand (Fq.sqrt ((y * y).c0)) (fun r => ⟨r, 0⟩) ++
      ocand (Fq.sqrt (-(y * y).c0)) (fun r => ⟨0, r⟩) := by
    rw [sqrtCands, hs]
  rw [sqrt]
  refine List.find?_isSome.mpr ?_
  by_cases hy0 : y.c0 = 0
  · -- purely imaginary root: -(y*y).c0 = y.c1 * y.c1
    have hneg : -(y * y).c0 = y.c1 * y.c1 := by
      simp only [mul_c0]
      rw [hy0]
      ring
    have hsq : IsSquare (-(y * y).c0) := ⟨y.c1, hneg⟩
    obtain ⟨r, hr⟩ := Option.isSome_iff_exists.mp (Fq.sqrt_isSome hsq)
    have hrsq : r * r = y.c1 * y.c1 := by
      have hq := Fq.sqrt_correct hr
      rwa [hneg] at hq
    refine ⟨⟨0, r⟩, ?_, decide_eq_true ?_⟩
    · rw [hcands]
      simp only [List.mem_append]
      exact Or.inr (mem_ocand (fun r => ⟨0, r⟩) hr)
    · ext
      · simp only [mul_c0]
        rw [hy0, hrsq]
      · simp only [mul_c1]
        rw [hy0]
        ring
  · by_cases hy1 : y.c1 = 0
    · -- purely real root: (y*y).c0 = y.c0 * y.c0
      have hpos : (y * y).c0 = y.c0 * y.c0 := by
        simp only [mul_c0]
        rw [hy1]
        ring
      have hsq : IsSquare ((y * y).c0) := ⟨y.c0, hpos⟩
      obtain ⟨r, hr⟩ := Option.isSome_iff_exists.mp (Fq.sqrt_isSome hsq)
      have hrsq : r * r = y.c0 * y.c0 := by
        have hq := Fq.sqrt_correct hr
        rwa [hpos] at hq
      refine ⟨⟨r, 0⟩, ?_, decide_eq_true ?_⟩
      · rw [hcands]
        simp only [List.mem_append]
        exact Or.inl (Or.inr (mem_ocand (fun r => ⟨r, 0⟩) hr))
      · ext
        · simp only [mul_c0]
          rw [hrsq, hy1]
        · simp only [mul_c1]
          rw [hy1]
          ring
    · -- both limbs nonzero: use one of the two generic candidates
      rcases Fq.eq_or_eq_neg_of_sq_eq hss with hseq | hseq
      · have ht : (((y * y).c0 + s) * Fq.half) = y.c0 * y.c0 := by
          rw [hseq, norm]
          simp only [mul_c0]
          linear_combination (y.c0 * y.c0) * Fq.two_mul_half
        have hsq : IsSquare (((y * y).c0 + s) * Fq.half) := ⟨y.c0, ht⟩
        obtain ⟨x0, hx0⟩ := Option.isSome_iff_exists.mp (Fq.sqrt_isSome hsq)
        have hx0sq : x0 * x0 = y.c0 * y.c0 := by
          have hq := Fq.sqrt_correct hx0
          rwa [ht] at hq
        refine ⟨⟨x0, (y * y).c1 * Fq.inv (2 * x0)⟩, ?_, decide_eq_true (cand_sq hy0 hx0sq)⟩
        rw [hcands]
        simp only [List.mem_append]
        exact Or.inl (Or.inl (Or.inl
          (mem_ocand (fun x0 => ⟨x0, (y * y).c1 * Fq.inv (2 * x0)⟩) hx0)))
      · have ht : (((y * y).c0 - s) * Fq.half) = y.c0 * y.c0 := by
          rw [hseq, norm]
          simp only [mul_c0]
          linear_combination (y.c0 * y.c0) * Fq.two_mul_half
        have hsq : IsSquare (((y * y).c0 - s) * Fq.half) := ⟨y.c0, ht⟩
        obtain ⟨x0, hx0⟩ := Option.isSome_iff_exists.mp (Fq.sqrt_isSome hsq)
        have hx0sq : x0 * x0 = y.c0 * y.c0 := by
          have hq := Fq.sqrt_correct hx0
          rwa [ht] at hq
        refine ⟨⟨x0, (y * y).c1 * Fq.inv (2 * x0)⟩, ?_, decide_eq_true (cand_sq hy0 hx0sq)⟩
        rw [hcands]
        simp only [List.mem_append]
        exact Or.inl (Or.inl (Or.inr
          (mem_ocand (fun x0 => ⟨x0, (y * y).c1 * Fq.inv (2 * x0)⟩) hx0)))

end Fq2

/-! ### Points and the compressed encoding (from `ec.rs`).

A 32-byte (resp. 64-byte) array is represented by its little-endian value
`n < 2^256` (resp. `n < 2^512`); byte `i` is `n / 256^i % 256`.  Under this
representation `tmp[31] >> 7` is `n / 2^255 % 2`, clearing that bit is
`n % 2^255`, and `xbytes[31] |= sign << 7` is `+ sign * 2^255` because the
encoded field value stays below `2^255`. -/

/-- Affine point: two coordinates plus an explicit identity flag. -/
structure AffinePoint (F : Type) where
  x : F
  y : F
  infinity : Bool
deriving DecidableEq

/-- Jacobian point `(x, y, z)` representing `(x/z², y/z³)`, identity iff `z = 0`. -/
structure JacobianPoint (F : Type) where
  x : F
  y : F
  z : F
deriving DecidableEq

/-- Modelled from the spec: affine to Jacobian conversion (`From<G1Affine>`),
the identity maps to `z = 0`, a finite point to `z = 1`. -/
def toJacobian {F : Type} [Zero F] [One F] (a : AffinePoint F) : JacobianPoint F :=
  ⟨a.x, a.y, if a.infinity then 0 else 1⟩

namespace G1

/-- `G1::curve_constant_b`: the coefficient 3. -/
def curve_constant_b : Fq := Fq.from_raw 3 0 0 0

/-- `G1::generator`: `(1, 2, 1)` in Jacobian form. -/
def generator : JacobianPoint Fq := ⟨1, Fq.from_raw 2 0 0 0, 1⟩

end G1

namespace G1Affine

/-- `G1Affine::curve_constant_b`. -/
def curve_constant_b : Fq := Fq.from_raw 3 0 0 0

/-- `G1Affine::generator`: the affine point `(1, 2)`. -/
def generator : AffinePoint Fq := ⟨1, Fq.from_raw 2 0 0 0, false⟩

/-- Modelled from the spec: the affine identity, flag set, coordinates zero. -/
def identity : AffinePoint Fq := ⟨0, 0, true⟩

/-- `G1Affine::from_bytes`: extract the sign bit from the top of byte 31,
clear it, decode `x`, short-circuit the identity on zero `x` with clear sign,
else take the square root of `x³ + b` and select the root whose parity
matches the sign bit (`Fq::conditional_select(&y, &-y, ysign ^ sign)`). -/
def from_bytes (n : ℕ) : Option (AffinePoint Fq) :=
  (Fq.from_bytes (n % 2 ^ 255)).bind (fun x =>
    if x = 0 ∧ n / 2 ^ 255 % 2 = 0 then some identity
    else
      (Fq.sqrt (x * x * x + G1.curve_constant_b)).bind (fun y =>
        some ⟨x, if n / 2 ^ 255 % 2 = Fq.to_bytes y % 2 then y else -y, false⟩))

/-- `G1Affine::from_bytes_unchecked` simply delegates to `from_bytes`. -/
def from_bytes_unchecked (n : ℕ) : Option (AffinePoint Fq) := from_bytes n

/-- `G1Affine::to_bytes`: all-zero for the identity, else the canonical
encoding of `x` with the parity of `y` stored in the top bit of byte 31. -/
def to_bytes (a : AffinePoint Fq) : ℕ :=
  if a.infinity then 0
  else Fq.to_bytes a.x + (Fq.to_bytes a.y % 2) * 2 ^ 255

end G1Affine

/-- `<G1 as GroupEncoding>::from_bytes`, via the affine decoder. -/
def G1.from_bytes (n : ℕ) : Option (JacobianPoint Fq) :=
  (G1Affine.from_bytes n).map toJacobian

/-- `<G1 as GroupEncoding>::from_bytes_unchecked`, same body as `from_bytes`. -/
def G1.from_bytes_unchecked (n : ℕ) : Option (JacobianPoint Fq) :=
  (G1Affine.from_bytes n).map toJacobian

namespace G2

/-- `G2::curve_constant_b`: the twist coefficient `3 / (9 + u)`. -/
def curve_constant_b : Fq2 :=
  ⟨Fq.from_raw 0x3267e6dc24a138e5 0xb5b4c5e559dbefa3 0x81be18991be06ac3 0x2b149d40ceb8aaae,
   Fq.from_raw 0xe4a2bd0685c315d2 0xa74fa084e52d1852 0xcd2cafadeed8fdf4 0x009713b03af0fed4⟩

/-- `G2::generator` in Jacobian form. -/
def generator : JacobianPoint Fq2 :=
  ⟨⟨Fq.from_raw 0x46debd5cd992f6ed 0x674322d4f75edadd 0x426a00665e5c4479 0x1800deef121f1e76,
    Fq.from_raw 0x97e485b7aef312c2 0xf1aa493335a9e712 0x7260bfb731fb5d25 0x198e9393920d483a⟩,
   ⟨Fq.from_raw 0x4ce6cc0166fa7daa 0xe3d1e7690c43d37b 0x4aab71808dcb408f 0x12c85ea5db8c6deb,
    Fq.from_raw 0x55acdadcd122975b 0xbc4b313370b38ef3 0xec9e99ad690c3395 0x090689d0585ff075⟩,
   1⟩

end G2

namespace G2Affine

/-- `G2Affine::curve_constant_b`, shared with `G2`. -/
def curve_constant_b : Fq2 := G2.curve_constant_b

/-- `G2Affine::generator`. -/
def generator : AffinePoint Fq2 :=
  ⟨⟨Fq.from_raw 0x46debd5cd992f6ed 0x674322d4f75edadd 0x426a00665e5c4479 0x1800deef121f1e76,
    Fq.from_raw 0x97e485b7aef312c2 0xf1aa493335a9e712 0x7260bfb731fb5d25 0x198e9393920d483a⟩,
   ⟨Fq.from_raw 0x4ce6cc0166fa7daa 0xe3d1e7690c43d37b 0x4aab71808dcb408f 0x12c85ea5db8c6deb,
    Fq.from_raw 0x55acdadcd122975b 0xbc4b313370b38ef3 0xec9e99ad690c3395 0x090689d0585ff075⟩,
   false⟩

/-- Modelled from the spec: the affine identity. -/
def identity : AffinePoint Fq2 := ⟨0, 0, true⟩

/-- `G2Affine::from_bytes`, the 64-byte analogue of the `G1` decoder
(sign bit in the top of byte 63). -/
def from_bytes (n : ℕ) : Option (AffinePoint Fq2) :=
  (Fq2.from_bytes (n % 2 ^ 511)).bind (fun x =>
    if x = 0 ∧ n / 2 ^ 511 % 2 = 0 then some identity
    else
      (Fq2.sqrt (x * x * x + G2.curve_constant_b)).bind (fun y =>
        some ⟨x, if n / 2 ^ 511 % 2 = Fq2.to_bytes y % 2 then y else -y, false⟩))

/-- `G2Affine::from_bytes_unchecked` simply delegates to `from_bytes`. -/
def from_bytes_unchecked (n : ℕ) : Option (AffinePoint Fq2) := from_bytes n

/-- `G2Affine::to_bytes`. -/
def to_bytes (a : AffinePoint Fq2) : ℕ :=
  if a.infinity then 0
  else Fq2.to_bytes a.x + (Fq2.to_bytes a.y % 2) * 2 ^ 511

end G2Affine

/-- `<G2 as GroupEncoding>::from_bytes`, via the affine decoder. -/
def G2.from_bytes (n : ℕ) : Option (JacobianPoint Fq2) :=
  (G2Affine.from_bytes n).map toJacobian

/-- `<G2 as GroupEncoding>::from_bytes_unchecked`, same body as `from_bytes`. -/
def G2.from_bytes_unchecked (n : ℕ) : Option (JacobianPoint Fq2) :=
  (G2Affine.from_bytes n).map toJacobian

/-! ### The Jacobian group law (macro `new_curve_impl!`, outside the given
source tree — modelled from the spec, §4.1–4.2): identity short-circuits,
cross-multiplied comparisons, dispatch to doubling on coincidence, the
standard `a = 0` Jacobian doubling and addition formulas, and a
double-and-add scalar-multiplication chain. -/

section GroupLaw

variable {F : Type} [CommRing F] [DecidableEq F]

/-- Modelled from the spec: the Jacobian identity, `z = 0`. -/
def jacIdentity : JacobianPoint F := ⟨0, 0, 0⟩

/-- Modelled from the spec: negation, `-(x, y, z) = (x, -y, z)`. -/
def jacNeg (a : JacobianPoint F) : JacobianPoint F := ⟨a.x, -a.y, a.z⟩

/-- Modelled from the spec: standard Jacobian doubling for `a = 0` curves,
with the `z = 0` short-circuit. -/
def jacDouble (a : JacobianPoint F) : JacobianPoint F :=
  if a.z = 0 then jacIdentity
  else
    ⟨3 * a.x ^ 2 * (3 * a.x ^ 2) - 8 * (a.x * a.y ^ 2),
     3 * a.x ^ 2 * (4 * (a.x * a.y ^ 2) - (3 * a.x ^ 2 * (3 * a.x ^ 2) - 8 * (a.x * a.y ^ 2)))
       - 8 * a.y ^ 4,
     2 * a.y * a.z⟩

/-- Modelled from the spec: Jacobian addition — identity short-circuits,
cross-multiplied coincidence test dispatching to doubling (equal points) or
to the identity (opposite points), and the standard general formula. -/
def jacAdd (a b : JacobianPoint F) : JacobianPoint F :=
  if a.z = 0 then b
  else if b.z = 0 then a
  else
    if a.x * b.z ^ 2 = b.x * a.z ^ 2 then
      (if a.y * b.z ^ 3 = b.y * a.z ^ 3 then jacDouble a else jacIdentity)
    else
      ⟨(b.y * a.z ^ 3 - a.y * b.z ^ 3) ^ 2 - (b.x * a.z ^ 2 - a.x * b.z ^ 2) ^ 3
         - 2 * (a.x * b.z ^ 2) * (b.x * a.z ^ 2 - a.x * b.z ^ 2) ^ 2,
       (b.y * a.z ^ 3 - a.y * b.z ^ 3) *
           ((a.x * b.z ^ 2) * (b.x * a.z ^ 2 - a.x * b.z ^ 2) ^ 2 -
             ((b.y * a.z ^ 3 - a.y * b.z ^ 3) ^ 2 - (b.x * a.z ^ 2 - a.x * b.z ^ 2) ^ 3
               - 2 * (a.x * b.z ^ 2) * (b.x * a.z ^ 2 - a.x * b.z ^ 2) ^ 2)) -
         (a.y * b.z ^ 3) * (b.x * a.z ^ 2 - a.x * b.z ^ 2) ^ 3,
       a.z * b.z * (b.x * a.z ^ 2 - a.x * b.z ^ 2)⟩

/-- Modelled from the spec: projective equality — two identities are equal,
otherwise compare cross-multiplied coordinates. -/
def jacEq (a b : JacobianPoint F) : Prop :=
  (a.z = 0 ∧ b.z = 0) ∨
  (a.z ≠ 0 ∧ b.z ≠ 0 ∧ a.x * b.z ^ 2 = b.x * a.z ^ 2 ∧ a.y * b.z ^ 3 = b.y * a.z ^ 3)

/-- Modelled from the spec: the Jacobian on-curve test, `y² = x³ + b·z⁶`
(the affine equation after normalization), with `z = 0` trivially on-curve. -/
def jacOnCurve (b : F) (a : JacobianPoint F) : Prop :=
  a.z = 0 ∨ a.y ^ 2 = a.x ^ 3 + b * a.z ^ 6

/-- Modelled from the spec: double-and-add scalar multiplication over the
bits of the scalar. -/
def jacScalarMul (k : ℕ) (a : JacobianPoint F) : JacobianPoint F :=
  if k = 0 then jacIdentity
  else if k % 2 = 1 then jacAdd (jacDouble (jacScalarMul (k / 2) a)) a
  else jacDouble (jacScalarMul (k / 2) a)
  termination_by k
  decreasing_by all_goals exact Nat.div_lt_self (Nat.pos_of_ne_zero (by assumption)) one_lt_two

/-- The affine on-curve predicate, `y² = x³ + b` for finite points. -/
def affOnCurve (b : F) (a : AffinePoint F) : Prop :=
  a.infinity = true ∨ a.y ^ 2 = a.x ^ 3 + b

/-- Equality of affine points: both the identity, or equal coordinates. -/
def affEq (a b : AffinePoint F) : Prop :=
  (a.infinity = true ∧ b.infinity = true) ∨
  (a.infinity = false ∧ b.infinity = false ∧ a.x = b.x ∧ a.y = b.y)

instance (b : F) (a : JacobianPoint F) : Decidable (jacOnCurve b a) := by
  unfold jacOnCurve
  exact inferInstance

instance (a b : JacobianPoint F) : Decidable (jacEq a b) := by
  unfold jacEq
  exact inferInstance

instance (b : F) (a : AffinePoint F) : Decidable (affOnCurve b a) := by
  unfold affOnCurve
  exact inferInstance

instance (a b : AffinePoint F) : Decidable (affEq a b) := by
  unfold affEq
  exact inferInstance

end GroupLaw


/-! ### Helper facts: byte-layout decomposition and non-residue certificates. -/

theorem P_lt_weight : P < 2 ^ 254 := by decide

theorem two_255_pos : (0 : ℕ) < 2 ^ 255 := by norm_num

/-- Splitting the `G1` compressed encoding of a finite point into the
`x` encoding (low 255 bits) and the sign bit (bit 255). -/
theorem g1_bytes_split (a : AffinePoint Fq) (h : a.infinity = false) :
    G1Affine.to_bytes a % 2 ^ 255 = Fq.to_bytes a.x ∧
    G1Affine.to_bytes a / 2 ^ 255 % 2 = Fq.to_bytes a.y % 2 := by
  rw [G1Affine.to_bytes, h]
  simp only [Bool.false_eq_true, if_false]
  have hx : Fq.to_bytes a.x < P := ZMod.val_lt a.x
  have hP : P < 2 ^ 254 := P_lt_weight
  have hs : Fq.to_bytes a.y % 2 < 2 := Nat.mod_lt _ (by norm_num)
  constructor
  · omega
  · omega

/-- Splitting the `G2` compressed encoding of a finite point. -/
theorem g2_bytes_split (a : AffinePoint Fq2) (h : a.infinity = false) :
    G2Affine.to_bytes a % 2 ^ 511 = Fq2.to_bytes a.x ∧
    G2Affine.to_bytes a / 2 ^ 511 % 2 = Fq2.to_bytes a.y % 2 := by
  rw [G2Affine.to_bytes, h]
  simp only [Bool.false_eq_true, if_false]
  have hx0 : a.x.c0.val < P := ZMod.val_lt a.x.c0
  have hx1 : a.x.c1.val < P := ZMod.val_lt a.x.c1
  have hP : P < 2 ^ 254 := P_lt_weight
  have hs : Fq2.to_bytes a.y % 2 < 2 := Nat.mod_lt _ (by norm_num)
  rw [Fq2.to_bytes, Fq.to_bytes, Fq.to_bytes] at *
  constructor
  · omega
  · omega

/-- The parity of the `Fq2` encoding is the parity of the low limb. -/
theorem fq2_bytes_parity (a : Fq2) : Fq2.to_bytes a % 2 = a.c0.val % 2 := by
  rw [Fq2.to_bytes, Fq.to_bytes, Fq.to_bytes]
  omega

/-- Decoding inverts encoding on `Fq`. -/
theorem fq_from_to_bytes (x : Fq) : Fq.from_bytes (Fq.to_bytes x) = some x := by
  rw [Fq.from_bytes, Fq.to_bytes, if_pos (ZMod.val_lt x), Fq.natCast_val_self]

/-- Decoding inverts encoding on `Fq2`. -/
theorem fq2_from_to_bytes (x : Fq2) : Fq2.from_bytes (Fq2.to_bytes x) = some x := by
  have h0 : x.c0.val < P := ZMod.val_lt x.c0
  have h1 : x.c1.val < P := ZMod.val_lt x.c1
  have hP : P < 2 ^ 254 := P_lt_weight
  have hlo : Fq2.to_bytes x % 2 ^ 256 = x.c0.val := by
    rw [Fq2.to_bytes, Fq.to_bytes, Fq.to_bytes]
    omega
  have hhi : Fq2.to_bytes x / 2 ^ 256 = x.c1.val := by
    rw [Fq2.to_bytes, Fq.to_bytes, Fq.to_bytes]
    omega
  rw [Fq2.from_bytes, hlo, hhi]
  rw [show Fq.from_bytes x.c0.val = some x.c0 from fq_from_to_bytes x.c0,
    show Fq.from_bytes x.c1.val = some x.c1 from fq_from_to_bytes x.c1]

theorem g1_b_eq : G1.curve_constant_b = ((3 : ℕ) : Fq) := by
  rw [G1.curve_constant_b, Fq.from_raw]
  norm_num

theorem fq_three_ne_zero : ((3 : ℕ) : Fq) ≠ 0 := by decide

theorem fq_three_pow_half : ((3 : ℕ) : Fq) ^ (P / 2) ≠ 1 :=
  zmod_pow_ne_one P 3 (P / 2)
    21888242871839275222246405745257275088696311157297823662689037894645226208582
    (by decide) (by decide) (by decide) (by decide)

/-- `3` (the `G1` curve coefficient) is not a square in `Fq`. -/
theorem g1_b_not_square : ¬ IsSquare (G1.curve_constant_b) := by
  rw [g1_b_eq]
  intro h
  exact fq_three_pow_half ((ZMod.euler_criterion P fq_three_ne_zero).mp h)

theorem pthird_mul : 3 * ((P - 1) / 3) = P - 1 := by decide

theorem fq_neg_three_pow_third : ((P - 3 : ℕ) : Fq) ^ ((P - 1) / 3) ≠ 1 :=
  zmod_pow_ne_one P (P - 3) ((P - 1) / 3)
    21888242871839275220042445260109153167277707414472061641714758635765020556616
    (by decide) (by decide) (by decide) (by decide)

theorem fq_neg_three_eq : (-(((3 : ℕ) : Fq))) = ((P - 3 : ℕ) : Fq) := by
  have h3 : (3 : ℕ) ≤ P := by decide
  rw [Nat.cast_sub h3, ZMod.natCast_self, zero_sub]

/-- No element of `Fq` cubes to `-3`: the `G1` curve has no point with `y = 0`. -/
theorem neg_three_not_cube (t : Fq) : t * t * t ≠ -(((3 : ℕ) : Fq)) := by
  intro h
  have ht : t ≠ 0 := by
    intro h0
    rw [h0, mul_zero] at h
    exact fq_three_ne_zero (by linear_combination h)
  have hpow : (-(((3 : ℕ) : Fq))) ^ ((P - 1) / 3) = 1 := by
    rw [← h]
    have hmul : t * t * t = t ^ 3 := by ring
    rw [hmul, ← pow_mul, pthird_mul]
    exact ZMod.pow_card_sub_one_eq_one ht
  rw [fq_neg_three_eq] at hpow
  exact fq_neg_three_pow_third hpow

theorem fq2_norm_b2_eq : Fq2.norm G2.curve_constant_b =
    ((21087453498479301738505683583845423561061080261299122796980902361914303298513 : ℕ) : Fq) := by
  decide

theorem fq2_norm_b2_ne_zero :
    ((21087453498479301738505683583845423561061080261299122796980902361914303298513 : ℕ) : Fq) ≠ 0 := by
  decide

theorem fq2_norm_b2_pow_half :
    ((21087453498479301738505683583845423561061080261299122796980902361914303298513 : ℕ) : Fq) ^
      (P / 2) ≠ 1 :=
  zmod_pow_ne_one P
    21087453498479301738505683583845423561061080261299122796980902361914303298513 (P / 2)
    21888242871839275222246405745257275088696311157297823662689037894645226208582
    (by decide) (by decide) (by decide) (by decide)

/-- The twist coefficient `b2` is not a square in `Fq2` (its norm is a
non-residue in `Fq`). -/
theorem g2_b_not_square : ¬ IsSquare (G2.curve_constant_b) := by
  rintro ⟨w, hw⟩
  have hn : IsSquare (Fq2.norm G2.curve_constant_b) := by
    rw [hw, Fq2.norm_mul]
    exact ⟨Fq2.norm w, rfl⟩
  rw [fq2_norm_b2_eq] at hn
  exact fq2_norm_b2_pow_half ((ZMod.euler_criterion P fq2_norm_b2_ne_zero).mp hn)

theorem g1_b_same : G1Affine.curve_constant_b = ((3 : ℕ) : Fq) := g1_b_eq

theorem g2_b_same : G2Affine.curve_constant_b = G2.curve_constant_b := rfl

theorem g1_from_zero : G1Affine.from_bytes 0 = some G1Affine.identity := by decide

theorem g2_from_zero : G2Affine.from_bytes 0 = some G2Affine.identity := by decide

/-- Round trip for `G1`: decoding the encoding of any valid affine point
(identity included) recovers it. -/
theorem g1_round_trip (a : AffinePoint Fq) (hc : affOnCurve G1Affine.curve_constant_b a) :
    ∃ q, G1Affine.from_bytes (G1Affine.to_bytes a) = some q ∧ affEq q a := by
  by_cases hinf : a.infinity = true
  · refine ⟨G1Affine.identity, ?_, Or.inl ⟨rfl, hinf⟩⟩
    rw [G1Affine.to_bytes, hinf]
    simp only [if_true]
    exact g1_from_zero
  · have hfin : a.infinity = false := by
      revert hinf
      cases a.infinity <;> simp
    have hcrv : a.y ^ 2 = a.x ^ 3 + ((3 : ℕ) : Fq) := by
      rcases hc with h | h
      · rw [hfin] at h; cases h
      · rwa [g1_b_same] at h
    obtain ⟨hsplit1, hsplit2⟩ := g1_bytes_split a hfin
    rw [G1Affine.from_bytes, hsplit1, fq_from_to_bytes, Option.some_bind]
    have hx0 : ¬ (a.x = 0 ∧ G1Affine.to_bytes a / 2 ^ 255 % 2 = 0) := by
      rintro ⟨hx, _⟩
      apply g1_b_not_square
      rw [g1_b_eq]
      refine ⟨a.y, ?_⟩
      rw [hx] at hcrv
      linear_combination -hcrv
    rw [if_neg hx0]
    have harg : a.x * a.x * a.x + G1.curve_constant_b = a.y * a.y := by
      rw [g1_b_eq]
      linear_combination -hcrv
    rw [harg]
    have hy0 : a.y ≠ 0 := by
      intro h0
      apply neg_three_not_cube a.x
      rw [h0] at hcrv
      linear_combination -hcrv
    obtain ⟨c, hcs⟩ := Option.isSome_iff_exists.mp (Fq.sqrt_isSome ⟨a.y, rfl⟩)
    rw [hcs, Option.some_bind]
    refine ⟨_, rfl, Or.inr ⟨rfl, hfin, rfl, ?_⟩⟩
    have hcc : c * c = a.y * a.y := Fq.sqrt_correct hcs
    rcases Fq.eq_or_eq_neg_of_sq_eq hcc with rfl | hneg
    · rw [if_pos hsplit2]
    · rw [hneg, if_neg, neg_neg]
      rw [hsplit2]
      exact fun hcon => Fq.neg_parity hy0 hcon.symm

/-- Round trip for `G2`: decoding the encoding of a valid affine point
recovers it, provided the point is the identity or its `y` has a nonzero
low limb (so that the stored sign bit can distinguish `y` from `-y`). -/
theorem g2_round_trip (a : AffinePoint Fq2) (hc : affOnCurve G2Affine.curve_constant_b a)
    (hsign : a.infinity = true ∨ a.y.c0 ≠ 0) :
    ∃ q, G2Affine.from_bytes (G2Affine.to_bytes a) = some q ∧ affEq q a := by
  by_cases hinf : a.infinity = true
  · refine ⟨G2Affine.identity, ?_, Or.inl ⟨rfl, hinf⟩⟩
    rw [G2Affine.to_bytes, hinf]
    simp only [if_true]
    exact g2_from_zero
  · have hfin : a.infinity = false := by
      revert hinf
      cases a.infinity <;> simp
    have hy0 : a.y.c0 ≠ 0 := by
      rcases hsign with h | h
      · rw [hfin] at h; cases h
      · exact h
    have hcrv : a.y ^ 2 = a.x ^ 3 + G2.curve_constant_b := by
      rcases hc with h | h
      · rw [hfin] at h; cases h
      · rwa [g2_b_same] at h
    obtain ⟨hsplit1, hsplit2⟩ := g2_bytes_split a hfin
    rw [G2Affine.from_bytes, hsplit1, fq2_from_to_bytes, Option.some_bind]
    have hx0 : ¬ (a.x = 0 ∧ G2Affine.to_bytes a / 2 ^ 511 % 2 = 0) := by
      rintro ⟨hx, _⟩
      apply g2_b_not_square
      refine ⟨a.y, ?_⟩
      rw [hx] at hcrv
      linear_combination -hcrv
    rw [if_neg hx0]
    have harg : a.x * a.x * a.x + G2.curve_constant_b = a.y * a.y := by
      linear_combination -hcrv
    rw [harg]
    obtain ⟨c, hcs⟩ := Option.isSome_iff_exists.mp (Fq2.sqrt_isSome_of_isSquare ⟨a.y, rfl⟩)
    rw [hcs, Option.some_bind]
    refine ⟨_, rfl, Or.inr ⟨rfl, hfin, rfl, ?_⟩⟩
    have hcc : c * c = a.y * a.y := Fq2.sqrt_sq_eq hcs
    rcases Fq2.eq_or_eq_neg_of_mul_self_eq hcc with rfl | hneg
    · rw [if_pos hsplit2]
    · rw [hneg, if_neg, neg_neg]
      rw [hsplit2, fq2_bytes_parity, fq2_bytes_parity]
      simp only [Fq2.neg_c1, Fq2.neg_c0]
      exact fun hcon => Fq.neg_parity hy0 hcon.symm


/-! ### Group-law properties (for claim proofs over both instantiations). -/

theorem jacEq_refl {F : Type} [CommRing F] [DecidableEq F] (a : JacobianPoint F) :
    jacEq a a := by
  by_cases h : a.z = 0
  · exact Or.inl ⟨h, h⟩
  · exact Or.inr ⟨h, h, rfl, rfl⟩

/-- Identity is neutral on both sides and `a + (-a)` is the identity. -/
theorem jac_add_props {F : Type} [CommRing F] [DecidableEq F] [NoZeroDivisors F]
    (h2 : (2 : F) ≠ 0) (a : JacobianPoint F) :
    jacEq (jacAdd a jacIdentity) a ∧ jacEq (jacAdd jacIdentity a) a ∧
      jacEq (jacAdd a (jacNeg a)) jacIdentity := by
  refine ⟨?_, ?_, ?_⟩
  · rw [jacAdd]
    by_cases hz : a.z = 0
    · rw [if_pos hz]
      exact Or.inl ⟨rfl, hz⟩
    · rw [if_neg hz, if_pos (show jacIdentity.z = (0 : F) from rfl)]
      exact jacEq_refl a
  · rw [jacAdd, if_pos (show jacIdentity.z = (0 : F) from rfl)]
    exact jacEq_refl a
  · rw [jacAdd]
    by_cases hz : a.z = 0
    · rw [if_pos hz]
      exact Or.inl ⟨hz, rfl⟩
    · simp only [jacNeg]
      rw [if_neg hz, if_neg hz, if_pos trivial]
      by_cases hy : a.y * a.z ^ 3 = -a.y * a.z ^ 3
      · rw [if_pos hy]
        have h0 : ((2 : F) * a.y) * a.z ^ 3 = 0 := by linear_combination hy
        have hy0 : a.y = 0 := by
          rcases mul_eq_zero.mp h0 with h1 | h1
          · rcases mul_eq_zero.mp h1 with h3 | h3
            · exact absurd h3 h2
            · exact h3
          · exact absurd ((pow_eq_zero_iff (by norm_num)).mp h1) hz
        rw [jacDouble, if_neg hz]
        refine Or.inl ⟨?_, rfl⟩
        rw [hy0]
        ring
      · rw [if_neg hy]
        exact Or.inl ⟨rfl, rfl⟩

/-- Negation preserves the on-curve invariant. -/
theorem jacNeg_onCurve {F : Type} [CommRing F] [DecidableEq F] (b : F) (a : JacobianPoint F)
    (h : jacOnCurve b a) : jacOnCurve b (jacNeg a) := by
  rcases h with h | h
  · exact Or.inl h
  · right
    simp only [jacNeg]
    linear_combination h

/-- Doubling preserves the on-curve invariant. -/
theorem jacDouble_onCurve {F : Type} [CommRing F] [DecidableEq F] (b : F) (a : JacobianPoint F)
    (h : jacOnCurve b a) : jacOnCurve b (jacDouble a) := by
  rw [jacDouble]
  by_cases hz : a.z = 0
  · rw [if_pos hz]
    exact Or.inl rfl
  · rw [if_neg hz]
    rcases h with h | h
    · exact absurd h hz
    · right
      dsimp only
      linear_combination (64 * a.y ^ 6) * h

/-- Addition preserves the on-curve invariant. -/
theorem jacAdd_onCurve {F : Type} [CommRing F] [DecidableEq F] (b : F) (a c : JacobianPoint F)
    (ha : jacOnCurve b a) (hc : jacOnCurve b c) : jacOnCurve b (jacAdd a c) := by
  rw [jacAdd]
  by_cases hz1 : a.z = 0
  · rw [if_pos hz1]
    exact hc
  · rw [if_neg hz1]
    by_cases hz2 : c.z = 0
    · rw [if_pos hz2]
      exact ha
    · rw [if_neg hz2]
      rcases ha with h | h1
      · exact absurd h hz1
      rcases hc with h | h2
      · exact absurd h hz2
      by_cases hU : a.x * c.z ^ 2 = c.x * a.z ^ 2
      · rw [if_pos hU]
        by_cases hS : a.y * c.z ^ 3 = c.y * a.z ^ 3
        · rw [if_pos hS]
          exact jacDouble_onCurve b a (Or.inr h1)
        · rw [if_neg hS]
          exact Or.inl rfl
      · rw [if_neg hU]
        right
        dsimp only
        linear_combination (-a.z ^ 12 * c.x ^ 3 * c.z ^ 12 * b + a.z ^ 12 * c.x ^ 6 * c.z ^ 6 + 2 * a.y * a.z ^ 9 * c.x ^ 3 * c.y * c.z ^ 9 - a.y ^ 2 * a.z ^ 6 * c.x ^ 3 * c.z ^ 12 + 3 * a.x * a.z ^ 10 * c.x ^ 2 * c.z ^ 14 * b - 6 * a.x * a.z ^ 10 * c.x ^ 5 * c.z ^ 8 - 6 * a.x * a.y * a.z ^ 7 * c.x ^ 2 * c.y * c.z ^ 11 + 3 * a.x * a.y ^ 2 * a.z ^ 4 * c.x ^ 2 * c.z ^ 14 - 3 * a.x ^ 2 * a.z ^ 8 * c.x * c.z ^ 16 * b + 12 * a.x ^ 2 * a.z ^ 8 * c.x ^ 4 * c.z ^ 10 + 6 * a.x ^ 2 * a.y * a.z ^ 5 * c.x * c.y * c.z ^ 13 - 3 * a.x ^ 2 * a.y ^ 2 * a.z ^ 2 * c.x * c.z ^ 16 + a.x ^ 3 * a.z ^ 6 * c.z ^ 18 * b - 9 * a.x ^ 3 * a.z ^ 6 * c.x ^ 3 * c.z ^ 12 - 2 * a.x ^ 3 * a.y * a.z ^ 3 * c.y * c.z ^ 15 + a.x ^ 3 * a.y ^ 2 * c.z ^ 18 + 3 * a.x ^ 5 * a.z ^ 2 * c.x * c.z ^ 16 - a.x ^ 6 * c.z ^ 18) * h1 + (a.z ^ 18 * c.x ^ 3 * c.z ^ 6 * b + a.z ^ 18 * c.x ^ 3 * c.y ^ 2 - a.z ^ 18 * c.x ^ 6 - 2 * a.y * a.z ^ 15 * c.x ^ 3 * c.y * c.z ^ 3 - 3 * a.x * a.z ^ 16 * c.x ^ 2 * c.z ^ 8 * b - 3 * a.x * a.z ^ 16 * c.x ^ 2 * c.y ^ 2 * c.z ^ 2 + 3 * a.x * a.z ^ 16 * c.x ^ 5 * c.z ^ 2 + 6 * a.x * a.y * a.z ^ 13 * c.x ^ 2 * c.y * c.z ^ 5 + 3 * a.x ^ 2 * a.z ^ 14 * c.x * c.z ^ 10 * b + 3 * a.x ^ 2 * a.z ^ 14 * c.x * c.y ^ 2 * c.z ^ 4 - 6 * a.x ^ 2 * a.y * a.z ^ 11 * c.x * c.y * c.z ^ 7 - a.x ^ 3 * a.z ^ 12 * c.z ^ 12 * b - a.x ^ 3 * a.z ^ 12 * c.y ^ 2 * c.z ^ 6 - 9 * a.x ^ 3 * a.z ^ 12 * c.x ^ 3 * c.z ^ 6 + 2 * a.x ^ 3 * a.y * a.z ^ 9 * c.y * c.z ^ 9 + 12 * a.x ^ 4 * a.z ^ 10 * c.x ^ 2 * c.z ^ 8 - 6 * a.x ^ 5 * a.z ^ 8 * c.x * c.z ^ 10 + a.x ^ 6 * a.z ^ 6 * c.z ^ 12) * h2

/-- Scalar multiplication preserves the on-curve invariant. -/
theorem jacScalarMul_onCurve {F : Type} [CommRing F] [DecidableEq F] (b : F) (k : ℕ)
    (a : JacobianPoint F) (h : jacOnCurve b a) : jacOnCurve b (jacScalarMul k a) := by
  induction k using Nat.strong_induction_on with
  | _ k ih =>
    rw [jacScalarMul]
    by_cases hk : k = 0
    · rw [if_pos hk]
      exact Or.inl rfl
    · rw [if_neg hk]
      have hrec := ih (k / 2) (Nat.div_lt_self (Nat.pos_of_ne_zero hk) one_lt_two)
      by_cases hp : k % 2 = 1
      · rw [if_pos hp]
        exact jacAdd_onCurve b _ a (jacDouble_onCurve b _ hrec) h
      · rw [if_neg hp]
        exact jacDouble_onCurve b _ hrec

/-- A successful non-identity `G1` decode returns a `y` whose parity equals
the input's sign bit. -/
theorem g1_decode_sign (n : ℕ) (q : AffinePoint Fq) (h : G1Affine.from_bytes n = some q)
    (hq : q.infinity = false) : Fq.to_bytes q.y % 2 = n / 2 ^ 255 % 2 := by
  rw [G1Affine.from_bytes] at h
  rcases hx : Fq.from_bytes (n % 2 ^ 255) with _ | x
  · rw [hx] at h
    cases h
  rw [hx, Option.some_bind] at h
  by_cases hid : x = 0 ∧ n / 2 ^ 255 % 2 = 0
  · rw [if_pos hid] at h
    cases h
    simp [G1Affine.identity] at hq
  rw [if_neg hid] at h
  rcases hy : Fq.sqrt (x * x * x + G1.curve_constant_b) with _ | c
  · rw [hy] at h
    cases h
  rw [hy, Option.some_bind] at h
  have hcne : c ≠ 0 := by
    intro h0
    have hcc := Fq.sqrt_correct hy
    rw [h0, mul_zero] at hcc
    apply neg_three_not_cube x
    rw [← g1_b_eq]
    linear_combination -hcc
  cases h
  dsimp only
  by_cases hsel : n / 2 ^ 255 % 2 = Fq.to_bytes c % 2
  · rw [if_pos hsel]
    exact hsel.symm
  · rw [if_neg hsel]
    have hflip := Fq.neg_parity hcne
    have h1 : n / 2 ^ 255 % 2 < 2 := Nat.mod_lt _ (by norm_num)
    have h2 : Fq.to_bytes c % 2 < 2 := Nat.mod_lt _ (by norm_num)
    have h3 : Fq.to_bytes (-c) % 2 < 2 := Nat.mod_lt _ (by norm_num)
    rw [Fq.to_bytes] at *
    omega

/-- A successful non-identity `G2` decode returns a `y` whose parity equals
the input's sign bit whenever the low limb of `y` is nonzero; when that limb
is zero the parity is 0 regardless of the sign bit. -/
theorem g2_decode_sign (n : ℕ) (q : AffinePoint Fq2) (h : G2Affine.from_bytes n = some q)
    (hq : q.infinity = false) :
    (q.y.c0 ≠ 0 → Fq2.to_bytes q.y % 2 = n / 2 ^ 511 % 2) ∧
    (q.y.c0 = 0 → Fq2.to_bytes q.y % 2 = 0) := by
  rw [G2Affine.from_bytes] at h
  rcases hx : Fq2.from_bytes (n % 2 ^ 511) with _ | x
  · rw [hx] at h
    cases h
  rw [hx, Option.some_bind] at h
  by_cases hid : x = 0 ∧ n / 2 ^ 511 % 2 = 0
  · rw [if_pos hid] at h
    cases h
    simp [G2Affine.identity] at hq
  rw [if_neg hid] at h
  rcases hy : Fq2.sqrt (x * x * x + G2.curve_constant_b) with _ | c
  · rw [hy] at h
    cases h
  rw [hy, Option.some_bind] at h
  cases h
  dsimp only
  constructor
  · intro hc0
    rw [fq2_bytes_parity]
    by_cases hsel : n / 2 ^ 511 % 2 = Fq2.to_bytes c % 2
    · rw [if_pos hsel]
      rw [fq2_bytes_parity] at hsel
      exact hsel.symm
    · rw [if_neg hsel]
      rw [if_neg hsel] at hc0
      simp only [Fq2.neg_c0] at hc0 ⊢
      have hcne : c.c0 ≠ 0 := fun h0 => hc0 (by rw [h0, neg_zero])
      have hflip := Fq.neg_parity hcne
      rw [fq2_bytes_parity] at hsel
      have h1 : n / 2 ^ 511 % 2 < 2 := Nat.mod_lt _ (by norm_num)
      have h2 : c.c0.val % 2 < 2 := Nat.mod_lt _ (by norm_num)
      have h3 : (-c.c0).val % 2 < 2 := Nat.mod_lt _ (by norm_num)
      omega
  · intro hc0
    rw [fq2_bytes_parity, hc0]
    simp [ZMod.val_zero]

/-! ### Supporting concrete decode facts for witnesses and counterexamples. -/

theorem p_le_mod_255 : P ≤ P % 2 ^ 255 := by decide

theorem fq2_from_bytes_p_none : Fq2.from_bytes (P % 2 ^ 511) = none := by decide

theorem g1_from_one : G1Affine.from_bytes 1 = some ⟨1, ((2 : ℕ) : Fq), false⟩ := by decide

theorem fq2_two_ne_zero : (2 : Fq2) ≠ 0 := by decide

/-- A valid `G2` point whose `y` coordinate is purely imaginary (zero low
limb); the compressed sign bit cannot tell it from its negation. -/
def g2CexPoint : AffinePoint Fq2 :=
  ⟨⟨((1205952489344429190867423253716142958626398596171672049899689809080173048732 : ℕ) : Fq),
    ((7 : ℕ) : Fq)⟩,
   ⟨0, ((1484727363451953838491282493325074512687929730973103655536747321014613617800 : ℕ) : Fq)⟩,
   false⟩

/-- The point the decoder actually returns for `g2CexPoint`'s encoding. -/
def g2CexDecoded : AffinePoint Fq2 :=
  ⟨⟨((1205952489344429190867423253716142958626398596171672049899689809080173048732 : ℕ) : Fq),
    ((7 : ℕ) : Fq)⟩,
   ⟨0, ((20403515508387321383755123251932200576008381426324720007152290573630612590783 : ℕ) : Fq)⟩,
   false⟩

/-! ### The claims. -/

/-- C1 (counterexample): the round-trip law fails as stated.  `g2CexPoint`
is a valid non-identity `G2` point (on the twist curve), yet decoding its
encoding yields `g2CexDecoded`, whose `y` is the negation of the original:
when `y`'s low limb is zero the stored sign bit cannot distinguish `y`
from `-y`. -/
theorem claim_C1_cex :
    affOnCurve G2Affine.curve_constant_b g2CexPoint ∧
    g2CexPoint.infinity = false ∧
    G2Affine.from_bytes (G2Affine.to_bytes g2CexPoint) = some g2CexDecoded ∧
    ¬ affEq g2CexDecoded g2CexPoint :=
  ⟨by decide, rfl, by decide, by decide⟩

/-- C1 (amended): decoding the encoding recovers every valid point of `G1`
(identity included) unconditionally, and every valid point of `G2` that is
the identity or whose `y` has a nonzero low limb — the only points excluded
are the `G2` points with purely imaginary `y`, where the sign bit cannot
record which root was meant (`G1` has no such points since `x³ + 3 = 0` has
no solution). -/
theorem claim_C1_amended :
    (∀ a : AffinePoint Fq, affOnCurve G1Affine.curve_constant_b a →
      ∃ q, G1Affine.from_bytes (G1Affine.to_bytes a) = some q ∧ affEq q a) ∧
    (∀ a : AffinePoint Fq2, affOnCurve G2Affine.curve_constant_b a →
      (a.infinity = true ∨ a.y.c0 ≠ 0) →
      ∃ q, G2Affine.from_bytes (G2Affine.to_bytes a) = some q ∧ affEq q a) :=
  ⟨g1_round_trip, g2_round_trip⟩

/-- C1 witness: the round trip at the `G1` generator. -/
theorem claim_C1_witness :
    ∃ q, G1Affine.from_bytes (G1Affine.to_bytes G1Affine.generator) = some q ∧
      affEq q G1Affine.generator :=
  claim_C1_amended.1 G1Affine.generator (by decide)

/-- C2: encoding the identity yields the all-zero byte array and decoding
the all-zero byte array yields the identity, for both groups. -/
theorem claim_C2 :
    G1Affine.to_bytes G1Affine.identity = 0 ∧
    G2Affine.to_bytes G2Affine.identity = 0 ∧
    G1Affine.from_bytes 0 = some G1Affine.identity ∧
    G2Affine.from_bytes 0 = some G2Affine.identity :=
  ⟨rfl, rfl, g1_from_zero, g2_from_zero⟩

/-- C3: the input whose cleared bytes decode to `x = 0` but whose sign bit
is set (value `2^255` for `G1`, `2^511` for `G2`) is not decoded to the
identity: it falls through to the generic path and is rejected, because
neither `3` nor the twist coefficient is a square. -/
theorem claim_C3 :
    (2 ^ 255 : ℕ) % 2 ^ 255 = 0 ∧ (2 ^ 255 : ℕ) / 2 ^ 255 % 2 = 1 ∧
    G1Affine.from_bytes (2 ^ 255) = none ∧
    (2 ^ 511 : ℕ) % 2 ^ 511 = 0 ∧ (2 ^ 511 : ℕ) / 2 ^ 511 % 2 = 1 ∧
    G2Affine.from_bytes (2 ^ 511) = none :=
  ⟨by norm_num, by norm_num, by decide, by norm_num, by norm_num, by decide⟩

/-- C4: for every non-identity point the encoding is the canonical field
encoding of `x` with the most significant bit of the final byte (byte 31
resp. byte 63) set to the parity of the lowest-order byte of `y`'s
encoding; clearing that bit recovers exactly `x`'s encoding.  (`to_bytes`
is total by construction.) -/
theorem claim_C4 :
    (∀ a : AffinePoint Fq, a.infinity = false →
      G1Affine.to_bytes a / 256 ^ 31 % 256 / 128 = Fq.to_bytes a.y % 2 ∧
      G1Affine.to_bytes a % 2 ^ 255 = Fq.to_bytes a.x) ∧
    (∀ a : AffinePoint Fq2, a.infinity = false →
      G2Affine.to_bytes a / 256 ^ 63 % 256 / 128 = Fq2.to_bytes a.y % 2 ∧
      G2Affine.to_bytes a % 2 ^ 511 = Fq2.to_bytes a.x) := by
  constructor
  · intro a h
    have hs := g1_bytes_split a h
    rw [G1Affine.to_bytes, h] at *
    simp only [Bool.false_eq_true, if_false] at *
    have hx : Fq.to_bytes a.x < P := ZMod.val_lt a.x
    have hP : P < 2 ^ 254 := P_lt_weight
    have hpar : Fq.to_bytes a.y % 2 < 2 := Nat.mod_lt _ (by norm_num)
    have h31 : (256 : ℕ) ^ 31 = 2 ^ 248 := by norm_num
    rw [h31]
    constructor
    · omega
    · omega
  · intro a h
    have hs := g2_bytes_split a h
    rw [G2Affine.to_bytes, h] at *
    simp only [Bool.false_eq_true, if_false] at *
    have hx0 : a.x.c0.val < P := ZMod.val_lt a.x.c0
    have hx1 : a.x.c1.val < P := ZMod.val_lt a.x.c1
    have hP : P < 2 ^ 254 := P_lt_weight
    have hpar : Fq2.to_bytes a.y % 2 < 2 := Nat.mod_lt _ (by norm_num)
    have h63 : (256 : ℕ) ^ 63 = 2 ^ 504 := by norm_num
    rw [h63, Fq2.to_bytes, Fq.to_bytes, Fq.to_bytes] at *
    constructor
    · omega
    · omega

/-- C4 witness: the byte layout at the two generators. -/
theorem claim_C4_witness :
    (G1Affine.to_bytes G1Affine.generator / 256 ^ 31 % 256 / 128 =
        Fq.to_bytes G1Affine.generator.y % 2 ∧
      G1Affine.to_bytes G1Affine.generator % 2 ^ 255 = Fq.to_bytes G1Affine.generator.x) ∧
    (G2Affine.to_bytes G2Affine.generator / 256 ^ 63 % 256 / 128 =
        Fq2.to_bytes G2Affine.generator.y % 2 ∧
      G2Affine.to_bytes G2Affine.generator % 2 ^ 511 = Fq2.to_bytes G2Affine.generator.x) :=
  ⟨claim_C4.1 G1Affine.generator rfl, claim_C4.2 G2Affine.generator rfl⟩

/-- C5 (counterexample): the decode-failure condition is false as stated at
the all-zero input: `x = 0` gives `x³ + b = 3`, which has no square root,
yet `from_bytes` succeeds with the identity (the identity short-circuit
precedes the square-root test). -/
theorem claim_C5_cex :
    ¬ IsSquare ((0 : Fq) * (0 : Fq) * (0 : Fq) + G1.curve_constant_b) ∧
    G1Affine.from_bytes 0 = some G1Affine.identity := by
  constructor
  · intro h
    apply g1_b_not_square
    simpa using h
  · exact g1_from_zero

/-- C5 (amended): `from_bytes` returns `none` whenever the input has a
non-canonical `x` encoding or decodes to an `x` other than the identity
encoding for which `x³ + b` has no square root; the identity encoding
(zero `x`, clear sign bit) is the sole exception and succeeds with the
identity.  Failure is always the empty option — the functions are total. -/
theorem claim_C5_amended :
    (∀ n : ℕ, (P ≤ n % 2 ^ 255 ∨
        (∃ x : Fq, Fq.from_bytes (n % 2 ^ 255) = some x ∧
          ¬(x = 0 ∧ n / 2 ^ 255 % 2 = 0) ∧
          ¬ IsSquare (x * x * x + G1.curve_constant_b))) →
      G1Affine.from_bytes n = none) ∧
    (∀ n : ℕ, (Fq2.from_bytes (n % 2 ^ 511) = none ∨
        (∃ x : Fq2, Fq2.from_bytes (n % 2 ^ 511) = some x ∧
          ¬(x = 0 ∧ n / 2 ^ 511 % 2 = 0) ∧
          ¬ IsSquare (x * x * x + G2.curve_constant_b))) →
      G2Affine.from_bytes n = none) := by
  constructor
  · intro n h
    rw [G1Affine.from_bytes]
    rcases h with h | ⟨x, hx, hni, hnsq⟩
    · rw [Fq.from_bytes, if_neg (by omega)]
      rfl
    · rw [hx, Option.some_bind, if_neg hni]
      rcases hs : Fq.sqrt (x * x * x + G1.curve_constant_b) with _ | c
      · rfl
      · exact absurd ⟨c, (Fq.sqrt_correct hs).symm⟩ hnsq
  · intro n h
    rw [G2Affine.from_bytes]
    rcases h with h | ⟨x, hx, hni, hnsq⟩
    · rw [h]
      rfl
    · rw [hx, Option.some_bind, if_neg hni]
      rcases hs : Fq2.sqrt (x * x * x + G2.curve_constant_b) with _ | c
      · rfl
      · exact absurd ⟨c, (Fq2.sqrt_sq_eq hs).symm⟩ hnsq

/-- C5 witness: the non-canonical input `P` (the modulus itself) is
rejected by both decoders. -/
theorem claim_C5_witness :
    G1Affine.from_bytes P = none ∧ G2Affine.from_bytes P = none :=
  ⟨claim_C5_amended.1 P (Or.inl p_le_mod_255),
   claim_C5_amended.2 P (Or.inl fq2_from_bytes_p_none)⟩

/-- C6 (counterexample): decoding can succeed with a `y` whose sign does
not match the input's sign bit: on the `G2` input with sign bit 1 whose `x`
gives a purely imaginary square root, the returned `y` has parity 0. -/
theorem claim_C6_cex :
    G2Affine.from_bytes
        6703903964971298549787012499102923063739682910296196688861780721860882015037585238978087706880607578163330460591174541718132597026299387751081296583570332 =
      some g2CexPoint ∧
    (6703903964971298549787012499102923063739682910296196688861780721860882015037585238978087706880607578163330460591174541718132597026299387751081296583570332 : ℕ) /
        2 ^ 511 % 2 = 1 ∧
    Fq2.to_bytes g2CexPoint.y % 2 = 0 :=
  ⟨by decide, by norm_num, by decide⟩

/-- C6 (amended): whenever `from_bytes` succeeds with a non-identity point,
the returned `y`'s parity equals the input's sign bit — except on `G2`
inputs whose decoded `y` has a zero low limb, where the parity is 0
regardless of the sign bit (for `G1` the exception never occurs, since the
root is never 0).  The root selection itself is a data-independent select
in the source; that timing property is outside this embedding. -/
theorem claim_C6_amended :
    (∀ (n : ℕ) (q : AffinePoint Fq), G1Affine.from_bytes n = some q → q.infinity = false →
      Fq.to_bytes q.y % 2 = n / 2 ^ 255 % 2) ∧
    (∀ (n : ℕ) (q : AffinePoint Fq2), G2Affine.from_bytes n = some q → q.infinity = false →
      (q.y.c0 ≠ 0 → Fq2.to_bytes q.y % 2 = n / 2 ^ 511 % 2) ∧
      (q.y.c0 = 0 → Fq2.to_bytes q.y % 2 = 0)) :=
  ⟨g1_decode_sign, g2_decode_sign⟩

/-- C6 witness: the decode of the byte value 1 returns `(1, 2)` whose `y`
parity 0 matches the clear sign bit. -/
theorem claim_C6_witness :
    Fq.to_bytes ((⟨1, ((2 : ℕ) : Fq), false⟩ : AffinePoint Fq)).y % 2 = 1 / 2 ^ 255 % 2 :=
  claim_C6_amended.1 1 ⟨1, ((2 : ℕ) : Fq), false⟩ g1_from_one rfl

/-- C7: the `G1` generator is `(1, 2)`, it satisfies `y² = x³ + 3`, its
encoding is the byte value 1 (top bit clear since 2 is even), and decoding
that encoding returns `(1, 2)` again. -/
theorem claim_C7 :
    G1Affine.generator.x = 1 ∧
    G1Affine.generator.y = ((2 : ℕ) : Fq) ∧
    affOnCurve G1Affine.curve_constant_b G1Affine.generator ∧
    G1Affine.to_bytes G1Affine.generator = 1 ∧
    G1Affine.to_bytes G1Affine.generator / 2 ^ 255 % 2 = 0 ∧
    G1Affine.from_bytes (G1Affine.to_bytes G1Affine.generator) = some G1Affine.generator :=
  ⟨rfl, by decide, by decide, by decide, by decide, by decide⟩

/-- C8: the identity is neutral on both sides of addition and adding a
point to its negation yields the identity, in both groups (equality is the
projective cross-multiplied equality). -/
theorem claim_C8 :
    (∀ a : JacobianPoint Fq, jacEq (jacAdd a jacIdentity) a ∧ jacEq (jacAdd jacIdentity a) a ∧
      jacEq (jacAdd a (jacNeg a)) jacIdentity) ∧
    (∀ a : JacobianPoint Fq2, jacEq (jacAdd a jacIdentity) a ∧ jacEq (jacAdd jacIdentity a) a ∧
      jacEq (jacAdd a (jacNeg a)) jacIdentity) :=
  ⟨fun a => jac_add_props Fq.two_ne_zero_base a, fun a => jac_add_props fq2_two_ne_zero a⟩

/-- C9: the generators of both groups lie on their curves, and the on-curve
invariant is preserved by negation, doubling, addition and scalar
multiplication in both groups. -/
theorem claim_C9 :
    jacOnCurve G1.curve_constant_b G1.generator ∧
    affOnCurve G1Affine.curve_constant_b G1Affine.generator ∧
    jacOnCurve G2.curve_constant_b G2.generator ∧
    affOnCurve G2Affine.curve_constant_b G2Affine.generator ∧
    (∀ a : JacobianPoint Fq, jacOnCurve G1.curve_constant_b a →
      jacOnCurve G1.curve_constant_b (jacNeg a)) ∧
    (∀ a : JacobianPoint Fq, jacOnCurve G1.curve_constant_b a →
      jacOnCurve G1.curve_constant_b (jacDouble a)) ∧
    (∀ a c : JacobianPoint Fq, jacOnCurve G1.curve_constant_b a →
      jacOnCurve G1.curve_constant_b c → jacOnCurve G1.curve_constant_b (jacAdd a c)) ∧
    (∀ (k : ℕ) (a : JacobianPoint Fq), jacOnCurve G1.curve_constant_b a →
      jacOnCurve G1.curve_constant_b (jacScalarMul k a)) ∧
    (∀ a : JacobianPoint Fq2, jacOnCurve G2.curve_constant_b a →
      jacOnCurve G2.curve_constant_b (jacNeg a)) ∧
    (∀ a : JacobianPoint Fq2, jacOnCurve G2.curve_constant_b a →
      jacOnCurve G2.curve_constant_b (jacDouble a)) ∧
    (∀ a c : JacobianPoint Fq2, jacOnCurve G2.curve_constant_b a →
      jacOnCurve G2.curve_constant_b c → jacOnCurve G2.curve_constant_b (jacAdd a c)) ∧
    (∀ (k : ℕ) (a : JacobianPoint Fq2), jacOnCurve G2.curve_constant_b a →
      jacOnCurve G2.curve_constant_b (jacScalarMul k a)) :=
  ⟨by decide, by decide, by decide, by decide,
   jacNeg_onCurve _, jacDouble_onCurve _, jacAdd_onCurve _, jacScalarMul_onCurve _,
   jacNeg_onCurve _, jacDouble_onCurve _, jacAdd_onCurve _, jacScalarMul_onCurve _⟩

/-- C9 witness: the invariant at a concrete scalar multiple of the `G1`
generator. -/
theorem claim_C9_witness :
    jacOnCurve G1.curve_constant_b (jacScalarMul 5 G1.generator) :=
  claim_C9.2.2.2.2.2.2.2.1 5 G1.generator (by decide)

/-- C10: the `unchecked` byte decoders agree exactly with the checked ones
for `G1`, `G1Affine`, `G2` and `G2Affine` — the unchecked variants perform
the full validation. -/
theorem claim_C10 : ∀ n : ℕ,
    G1.from_bytes_unchecked n = G1.from_bytes n ∧
    G1Affine.from_bytes_unchecked n = G1Affine.from_bytes n ∧
    G2.from_bytes_unchecked n = G2.from_bytes n ∧
    G2Affine.from_bytes_unchecked n = G2Affine.from_bytes n :=
  fun _ => ⟨rfl, rfl, rfl, rfl⟩
